import Mathlib

/-! AutoTuningFSRTrigger: calibration and signalling engine

A shallow embedding of `src/Legacy/attempt-at-splitting-files/functions.h`.

* Global variables of the sketch are the fields of `State`.
* The platform primitives `analogRead`, `millis`, `digitalWrite` and `pinMode`
  are modelled against an environment `Env` that fixes what each successive
  call returns; every call is appended to `State.trace`.
* `int` values are mathematical integers (samples of the 10-bit converter keep
  every sum far below the 16-bit limit); `int(x / 2.00)` and `int(x / 3.000)` on
  an `int` operand are division truncated toward zero, `Int.tdiv`.
* `millis()` is an `unsigned long`: the elapsed-time tests are computed
  modulo `2^32`, as the usual arithmetic conversions make them.
* The two `while (true)` loops take a fuel argument: `none` means the loop has
  not left within that many iterations.
-/

namespace FSRTrigger

/-! ## Platform constants -/

/-- Digital level `LOW` of the Arduino core. -/
abbrev LOW : Int := 0

/-- Digital level `HIGH` of the Arduino core. -/
abbrev HIGH : Int := 1

/-- Pin mode `INPUT` of the Arduino core. -/
abbrev INPUT : Int := 0

/-- Pin mode `OUTPUT` of the Arduino core. -/
abbrev OUTPUT : Int := 1

/-- Width of `unsigned long` on the supported boards. -/
abbrev ULONG : Int := 2 ^ 32

/-! ## Observable events and the environment -/

/-- One call of a platform primitive, with its arguments and result. -/
inductive Event where
  | digitalWrite (pin level : Int)
  | pinMode (pin mode : Int)
  | analogRead (pin value : Int)
  | millis (value : Nat)
  deriving DecidableEq

/-- The outside world: what the converter and the clock return.
`sample pin k` is the result of the call of `analogRead(pin)` made when `k`
conversions have already been done; `clock k` is the result of the call of
`millis()` made when `k` clock reads have already been done.  `pinAt` stands
for the subscript expression `analogPIN[analogIDX]` of `performSettle` as a
function of its two operands, and `A n` for the board constant `An`; both come
from headers that are not part of the sources. -/
structure Env where
  sample : Int → Nat → Int
  clock : Nat → Nat
  pinAt : Int → Int → Int
  A : Nat → Int

/-- The global variables of the sketch, followed by the bookkeeping of the
platform calls made so far. -/
structure State where
  reading : Int
  ambient : Int
  threshold : Int
  noiseLEVEL : Int
  TIMEOUT : Int
  settleTIMEOUT : Int
  sinceLastSettle : Int
  normallyCLOSED : Bool
  oneShotSettle : Bool
  signalON : Int
  signalOFF : Int
  outputPIN : Int
  analogPIN : Int
  analogPIN1 : Int
  analogPIN2 : Int
  analogPIN3 : Int
  ledPIN1 : Int
  ledPIN2 : Int
  ledPIN3 : Int
  calibratePIN : Int
  triggerPIN : Int
  sensors : Int
  BOARD : Int
  analogIDX : Int
  PIN : Int
  reads : Nat
  ticks : Nat
  trace : List Event
  deriving DecidableEq

/-- The local variables of `performSettle`. -/
structure SettleLocals where
  reading : Int
  newambient : Int
  newdelta : Int
  delta : Int
  analogPIN : Int
  ambient : Int
  deriving DecidableEq

/-! ## Platform primitives -/

/-- The call `analogRead(pin)`: the value and the state after the call. -/
def analogRead (e : Env) (pin : Int) (s : State) : Int × State :=
  (e.sample pin s.reads,
   { s with reads := s.reads + 1,
            trace := s.trace ++ [Event.analogRead pin (e.sample pin s.reads)] })

/-- The call `millis()`: the value and the state after the call. -/
def millis (e : Env) (s : State) : Nat × State :=
  (e.clock s.ticks,
   { s with ticks := s.ticks + 1,
            trace := s.trace ++ [Event.millis (e.clock s.ticks)] })

/-- The call `digitalWrite(pin, level)`. -/
def digitalWrite (pin level : Int) (s : State) : State :=
  { s with trace := s.trace ++ [Event.digitalWrite pin level] }

/-- The call `pinMode(pin, mode)`. -/
def pinMode (pin mode : Int) (s : State) : State :=
  { s with trace := s.trace ++ [Event.pinMode pin mode] }

/-- The test `(millis() - since) > limit` on `unsigned long` operands, given
the value `now` that `millis()` returned. -/
def elapsedExceeds (now : Nat) (since limit : Int) : Bool :=
  decide (((now : Int) - since) % ULONG > limit % ULONG)

/-! ## Observations on a trace -/

/-- The levels written to `pin`, in order. -/
def writesTo (pin : Int) : List Event → List Int
  | [] => []
  | Event.digitalWrite p l :: rest =>
    if p = pin then l :: writesTo pin rest else writesTo pin rest
  | _ :: rest => writesTo pin rest

/-- Whether an event is a `digitalWrite`. -/
def Event.isWrite : Event → Bool
  | Event.digitalWrite _ _ => true
  | _ => false

/-- Whether an event is an `analogRead`. -/
def Event.isSample : Event → Bool
  | Event.analogRead _ _ => true
  | _ => false

/-- The level the pin is driven to after the trace: that of the last write to
it, if there is one. -/
def levelOf (pin : Int) (tr : List Event) : Option Int :=
  (writesTo pin tr).getLast?

/-! ## Detector and signaler -/

/-- The averaged reading, lines 141-142 (and 103-104, 67-68):
`reading = analogRead(analogPIN) + analogRead(analogPIN) + analogRead(analogPIN);`
`reading = int(reading / 3.000);` -/
def takeReading (e : Env) (s : State) : State :=
  let r1 := analogRead e s.analogPIN s
  let r2 := analogRead e r1.2.analogPIN r1.2
  let r3 := analogRead e r2.2.analogPIN r2.2
  let s1 := { r3.2 with reading := r1.1 + r2.1 + r3.1 }
  { s1 with reading := Int.tdiv s1.reading 3 }

/-- The polling loop of `performSignal`, lines 101-117. -/
def signalLoop (e : Env) (startTime : Int) : Nat → State → Option State
  | 0, _ => none
  | fuel + 1, s =>
    let s1 := takeReading e s
    if s1.reading ≤ s1.ambient + s1.threshold then some s1
    else
      let t := millis e s1
      if elapsedExceeds t.1 startTime t.2.TIMEOUT then some t.2
      else signalLoop e startTime fuel t.2

/-- The polarity block of `performSignal`, lines 90-96. -/
def resolvePolarity (s : State) : State :=
  if s.normallyCLOSED then { s with signalON := LOW, signalOFF := HIGH }
  else { s with signalON := HIGH, signalOFF := LOW }

/-- The function `performSignal`, lines 83-121.  The locals `newReading` and
`SIGNAL` are never used. -/
def performSignal (e : Env) (fuel : Nat) (s : State) : Option State :=
  let t := millis e s
  let startTime : Int := t.1
  let s1 := resolvePolarity t.2
  let s2 := digitalWrite s1.outputPIN s1.signalON s1
  match signalLoop e startTime fuel s2 with
  | none => none
  | some s3 => some (digitalWrite s3.outputPIN s3.signalOFF s3)

/-- The function `processInput`, lines 139-148. -/
def processInput (e : Env) (fuel : Nat) (s : State) : Option State :=
  let s1 := takeReading e s
  if s1.reading > s1.ambient + s1.threshold then performSignal e fuel s1
  else some s1

/-! ## Calibrator -/

/-- The locals of `performSettle` as declared on lines 18-23. -/
def SettleLocals.fresh : SettleLocals :=
  { reading := 0, newambient := 0, newdelta := 0, delta := 0, analogPIN := 0, ambient := 0 }

/-- The body of the priming loop, lines 31-33:
`reading = analogRead(PIN);`
`ambient = int( (ambient + reading) / 2.00 );`
`ambient = newambient;` -/
def primeStep (e : Env) (sl : State × SettleLocals) : State × SettleLocals :=
  let r := analogRead e sl.1.PIN sl.1
  let l1 : SettleLocals := { sl.2 with reading := r.1 }
  let l2 : SettleLocals := { l1 with ambient := Int.tdiv (l1.ambient + l1.reading) 2 }
  let l3 : SettleLocals := { l2 with ambient := l2.newambient }
  (r.2, l3)

/-- The priming loop, lines 30-34, run for `n` iterations; the source runs it
for `x = 0, ..., 10`, that is with `n = 11`. -/
def primeLoop (e : Env) : Nat → State × SettleLocals → State × SettleLocals
  | 0, sl => sl
  | n + 1, sl => primeLoop e n (primeStep e sl)

/-- The body of the noise loop up to the exit test, lines 38-50. -/
def noiseStep (e : Env) (sl : State × SettleLocals) : State × SettleLocals :=
  let r := analogRead e sl.1.PIN sl.1
  let l1 : SettleLocals := { sl.2 with reading := r.1 }
  let l2 : SettleLocals := { l1 with newambient := Int.tdiv (l1.ambient + l1.reading) 2 }
  let l3 : SettleLocals := { l2 with newdelta := l2.newambient - l2.ambient }
  let l4 : SettleLocals := if l3.newdelta < 0 then { l3 with newdelta := l3.newdelta * -1 } else l3
  let l5 : SettleLocals := { l4 with delta := Int.tdiv (l4.newdelta + l4.delta) 2 }
  (r.2, l5)

/-- The noise loop, lines 37-55: `while (true)` left by the `break` of
line 53 when `delta <= noiseLEVEL`. -/
def noiseLoop (e : Env) : Nat → State × SettleLocals → Option (State × SettleLocals)
  | 0, _ => none
  | fuel + 1, sl =>
    let sl1 := noiseStep e sl
    if sl1.2.delta ≤ sl1.1.noiseLEVEL then some sl1 else noiseLoop e fuel sl1

/-- The state of the noise loop after `n` executions of its body, whether or
not the loop would have been left before. -/
def noiseIter (e : Env) : Nat → State × SettleLocals → State × SettleLocals
  | 0, sl => sl
  | n + 1, sl => noiseIter e n (noiseStep e sl)

/-- The body of the sensor loop, lines 27-55. -/
def settlePass (e : Env) (fuel : Nat) (sl : State × SettleLocals) :
    Option (State × SettleLocals) :=
  let s1 := { sl.1 with PIN := e.pinAt sl.2.analogPIN sl.1.analogIDX }
  noiseLoop e fuel (primeLoop e 11 (s1, sl.2))

/-- The sensor loop of line 26 from its test on: while `analogPIN < sensors`,
run the body and then `analogPIN++`.  The first argument bounds the number of
passes. -/
def sensorLoop (e : Env) (fuel : Nat) : Nat → State × SettleLocals → Option (State × SettleLocals)
  | 0, sl => if sl.2.analogPIN < sl.1.sensors then none else some sl
  | n + 1, sl =>
    if sl.2.analogPIN < sl.1.sensors then
      match settlePass e fuel sl with
      | none => none
      | some sl1 => sensorLoop e fuel n (sl1.1, { sl1.2 with analogPIN := sl1.2.analogPIN + 1 })
    else some sl

/-- Lines 18-57 of `performSettle`: the declarations, `analogIDX = 0` and the
sensor loop.  The result keeps the locals as they are when the loop is left.
The local `analogPIN` counts from 0 to `sensors`, so `sensors` passes are
allowed. -/
def settleRun (e : Env) (fuel : Nat) (s : State) : Option (State × SettleLocals) :=
  let s0 := { s with analogIDX := 0 }
  sensorLoop e fuel s0.sensors.toNat (s0, SettleLocals.fresh)

/-- The function `performSettle`, lines 17-59. -/
def performSettle (e : Env) (fuel : Nat) (s : State) : Option State :=
  match settleRun e fuel s with
  | none => none
  | some sl =>
    let t := millis e sl.1
    some { t.2 with sinceLastSettle := t.1 }

/-- The function `processSettle`, lines 66-78. -/
def processSettle (e : Env) (fuel : Nat) (s : State) : Option State :=
  let s1 := takeReading e s
  if s1.oneShotSettle = false then
    let r := if s1.reading + s1.noiseLEVEL < s1.ambient then performSettle e fuel s1 else some s1
    match r with
    | none => none
    | some s2 =>
      let t := millis e s2
      if elapsedExceeds t.1 t.2.sinceLastSettle t.2.settleTIMEOUT then performSettle e fuel t.2
      else some t.2
  else some s1

/-! ## Pin set-up and the sketch entry points -/

/-- The function `configurePins`, lines 125-136. -/
def configurePins (s : State) : State :=
  let s1 := pinMode s.outputPIN OUTPUT s
  let s2 := pinMode s1.analogPIN INPUT s1
  let s3 := digitalWrite s2.analogPIN LOW s2
  if s3.normallyCLOSED then digitalWrite s3.outputPIN HIGH s3
  else digitalWrite s3.outputPIN LOW s3

/-- The pin assignment shared by the cases 0, 1 and `default` of `boards`. -/
def boardUno (e : Env) (s : State) : State :=
  { s with outputPIN := 13, analogPIN1 := e.A 0, analogPIN2 := e.A 1, analogPIN3 := e.A 2,
           ledPIN1 := 12, ledPIN2 := 11, ledPIN3 := 10, calibratePIN := 9, triggerPIN := 8,
           sensors := 3 }

/-- The function `boards`, lines 171-249. -/
def boards (e : Env) (s : State) : State :=
  if s.BOARD = 0 then boardUno e s
  else if s.BOARD = 1 then boardUno e s
  else if s.BOARD = 2 then
    { s with outputPIN := 0, analogPIN1 := e.A 1, analogPIN2 := e.A 1, analogPIN3 := e.A 1,
             ledPIN1 := 1, ledPIN2 := 1, ledPIN3 := 1, calibratePIN := 3, triggerPIN := 4,
             sensors := 1 }
  else if s.BOARD = 3 then
    { s with outputPIN := 0, analogPIN1 := e.A 1, analogPIN2 := e.A 2, analogPIN3 := e.A 3,
             ledPIN1 := 1, ledPIN2 := 2, ledPIN3 := 3, calibratePIN := 4, triggerPIN := 5,
             sensors := 3 }
  else boardUno e s

/-- Lines 253-258 of `setup`: `boards()`, `pinMode(outputPIN, OUTPUT)` and
`digitalWrite(outputPIN, signalOFF)`. -/
def setupOutput (e : Env) (s : State) : State :=
  let s1 := boards e s
  let s2 := pinMode s1.outputPIN OUTPUT s1
  digitalWrite s2.outputPIN s2.signalOFF s2

/-- Lines 260-269 of `setup`: modes and levels of the analog pins. -/
def setupInputs (s : State) : State :=
  let s1 := pinMode s.analogPIN INPUT s
  let s2 := pinMode s1.analogPIN1 INPUT s1
  let s3 := pinMode s2.analogPIN2 INPUT s2
  let s4 := pinMode s3.analogPIN3 INPUT s3
  let s5 := digitalWrite s4.analogPIN LOW s4
  let s6 := digitalWrite s5.analogPIN1 LOW s5
  let s7 := digitalWrite s6.analogPIN2 LOW s6
  digitalWrite s7.analogPIN3 LOW s7

/-- The function `setup`, lines 251-275. -/
def setup (e : Env) (fuel : Nat) (s : State) : Option State :=
  performSettle e fuel (setupInputs (setupOutput e s))

/-- The function `loop`, lines 277-282: only `processInput()` is called, the
calls of `processSettle` and `blink` are commented out. -/
def loop (e : Env) (fuel : Nat) (s : State) : Option State :=
  processInput e fuel s

/-! ## Quantities used to state the properties -/

/-- The state with the scratch `reading` and the bookkeeping of platform calls
cleared: two states agree on it when every other global has the same value. -/
def State.globals (s : State) : State :=
  { s with reading := 0, reads := 0, ticks := 0, trace := [] }

/-- The averaged reading of a poll that starts when `n` conversions have been
done: the truncated third of the next three samples of `pin`. -/
def avgAt (e : Env) (pin : Int) (n : Nat) : Int :=
  Int.tdiv (e.sample pin n + e.sample pin (n + 1) + e.sample pin (n + 2)) 3

/-- The three `analogRead` events of a poll that starts when `n` conversions
have been done. -/
def pollEvents (e : Env) (pin : Int) (n : Nat) : List Event :=
  [Event.analogRead pin (e.sample pin n), Event.analogRead pin (e.sample pin (n + 1)),
   Event.analogRead pin (e.sample pin (n + 2))]

/-- The ON level of a polarity: `LOW` for normally-closed wiring. -/
def onLevel (normallyCLOSED : Bool) : Int := if normallyCLOSED then LOW else HIGH

/-- The OFF level of a polarity: `HIGH` for normally-closed wiring. -/
def offLevel (normallyCLOSED : Bool) : Int := if normallyCLOSED then HIGH else LOW

/-- The state and locals with which pass number `i` of the sensor loop starts
(passes counted from 0), when the passes before it have ended. -/
def passEntry (e : Env) (fuel : Nat) : Nat → State × SettleLocals → Option (State × SettleLocals)
  | 0, sl => some sl
  | i + 1, sl =>
    match settlePass e fuel sl with
    | none => none
    | some r => passEntry e fuel i (r.1, { r.2 with analogPIN := r.2.analogPIN + 1 })

/-- The priming rule in the words of the specification: each sample is folded
into the baseline by `baseline := (baseline + sample) / 2`, truncated. -/
def specPrimingFold (b0 : Int) (samples : List Int) : Int :=
  samples.foldl (fun b x => Int.tdiv (b + x) 2) b0

/-! ## Concrete environments and states -/

/-- A converter that returns `v` on every pin at every call and a clock that
advances by one millisecond per read; board constants `An = 14 + n`. -/
def steadyEnv (v : Int) : Env :=
  { sample := fun _ _ => v, clock := fun k => k, pinAt := fun _ _ => 14, A := fun n => 14 + n }

/-- A converter that returns the values of `vs` in order (and `rest` once they
are used up) and a clock that returns the values of `ts` in order (and the
number of the read once they are used up). -/
def listEnv (vs : List Int) (rest : Int) (ts : List Nat) : Env :=
  { sample := fun _ k => vs.getD k rest, clock := fun k => ts.getD k k,
    pinAt := fun _ _ => 14, A := fun n => 14 + n }

/-- A state with one sensor on pin 14, output on pin 13, normally-open
polarity and every other global zero. -/
def zeroState : State :=
  { reading := 0, ambient := 0, threshold := 0, noiseLEVEL := 0, TIMEOUT := 0,
    settleTIMEOUT := 0, sinceLastSettle := 0, normallyCLOSED := false, oneShotSettle := false,
    signalON := 0, signalOFF := 0, outputPIN := 13, analogPIN := 14, analogPIN1 := 14,
    analogPIN2 := 15, analogPIN3 := 16, ledPIN1 := 12, ledPIN2 := 11, ledPIN3 := 10,
    calibratePIN := 9, triggerPIN := 8, sensors := 1, BOARD := 0, analogIDX := 0, PIN := 0,
    reads := 0, ticks := 0, trace := [] }

/-- The scenario of the specification: baseline 512, threshold 50, signal
timeout of 10 ms. -/
def scenarioState : State :=
  { zeroState with ambient := 512, threshold := 50, TIMEOUT := 10 }

/-- The scenario of the specification with normally-closed wiring. -/
def closedState : State :=
  { scenarioState with normallyCLOSED := true }

/-- Two sensors, noise ceiling 2, every other global as in `zeroState`. -/
def twoSensorState : State :=
  { zeroState with noiseLEVEL := 2, sensors := 2 }

/-- One sensor, noise ceiling 2, every other global as in `zeroState`. -/
def quietState : State :=
  { zeroState with noiseLEVEL := 2 }

/-- Normally-closed wiring with every other global, `signalOFF` included, as in
`zeroState`: the globals as they are before any polarity is resolved. -/
def closedBootState : State :=
  { zeroState with normallyCLOSED := true }

/-- Readings that stay at 600; the clock reads 0, 10, 11 and then the number
of the read. -/
def stuckEnv : Env := listEnv [] 600 [0, 10, 11]

/-! ## Further quantities and inputs -/

/-- The state with everything cleared that `performSignal` may assign: the
scratch `reading`, the resolved `signalON` and `signalOFF`, and the
bookkeeping of platform calls.  Two states agree on it when every other
global has the same value. -/
def State.detectorFrame (s : State) : State :=
  { s with reading := 0, signalON := 0, signalOFF := 0, reads := 0, ticks := 0, trace := [] }

/-- The state with everything cleared that the sensor loop of `performSettle`
may assign: the global `PIN` and the bookkeeping of conversions. -/
def State.settleFrame (s : State) : State :=
  { s with PIN := 0, reads := 0, trace := [] }

/-- The state and locals with which a pass enters its noise loop: `PIN` is
assigned (line 27) and the priming loop has run (lines 30-34). -/
def noiseEntry (e : Env) (sl : State × SettleLocals) : State × SettleLocals :=
  primeLoop e 11 ({ sl.1 with PIN := e.pinAt sl.2.analogPIN sl.1.analogIDX }, sl.2)

/-- Twelve samples of 4 followed by samples of 8; the clock returns the number
of the read. -/
def driftEnv : Env := listEnv (List.replicate 12 4) 8 []

/-- One sensor, noise ceiling 2, baseline 10, settle timeout 100 ms. -/
def driftState : State :=
  { zeroState with noiseLEVEL := 2, ambient := 10, settleTIMEOUT := 100 }

/-- Samples of 100 on every pin; the clock reads 1000, 1001, 1002, 1003. -/
def staleEnv : Env := listEnv [] 100 [1000, 1001, 1002, 1003]

/-- Periodic re-settle enabled (`oneShotSettle` false), last settle at 0 ms,
settle timeout 5 ms, noise ceiling 30, baseline 512, threshold 50. -/
def staleState : State :=
  { zeroState with ambient := 512, threshold := 50, noiseLEVEL := 30, settleTIMEOUT := 5 }

/-- The state `staleState` in one-shot mode. -/
def oneShotState : State :=
  { staleState with oneShotSettle := true }

end FSRTrigger

namespace FSRTrigger

/-! ## Basic facts about the primitives -/

@[simp] theorem writesTo_append (pin : Int) (xs ys : List Event) :
    writesTo pin (xs ++ ys) = writesTo pin xs ++ writesTo pin ys := by
  induction xs with
  | nil => simp [writesTo]
  | cons x xs ih =>
    cases x <;> simp [writesTo, ih]
    split <;> simp

theorem writesTo_of_no_write (pin : Int) (xs : List Event)
    (h : ∀ ev ∈ xs, ev.isWrite = false) : writesTo pin xs = [] := by
  induction xs with
  | nil => rfl
  | cons x xs ih =>
    have hx := h x (by simp)
    have hxs : ∀ ev ∈ xs, ev.isWrite = false := fun ev hev => h ev (by simp [hev])
    cases x <;> simp_all [writesTo, Event.isWrite]

theorem takeReading_globals (e : Env) (s : State) : (takeReading e s).globals = s.globals := rfl

theorem millis_globals (e : Env) (s : State) : (millis e s).2.globals = s.globals := rfl

@[simp] theorem takeReading_reading (e : Env) (s : State) :
    (takeReading e s).reading = avgAt e s.analogPIN s.reads := rfl

@[simp] theorem takeReading_reads (e : Env) (s : State) :
    (takeReading e s).reads = s.reads + 3 := rfl

@[simp] theorem takeReading_ticks (e : Env) (s : State) :
    (takeReading e s).ticks = s.ticks := rfl

@[simp] theorem takeReading_trace (e : Env) (s : State) :
    (takeReading e s).trace = s.trace ++ pollEvents e s.analogPIN s.reads := by
  simp [takeReading, analogRead, pollEvents]

theorem pollEvents_no_write (e : Env) (pin : Int) (n : Nat) :
    ∀ ev ∈ pollEvents e pin n, ev.isWrite = false := by
  intro ev hev
  simp [pollEvents] at hev
  rcases hev with h | h | h <;> simp [h, Event.isWrite]

/-- Extraction of single globals from an agreement on `State.globals`. -/
theorem globals_fields {s s' : State} (h : s'.globals = s.globals) :
    s'.ambient = s.ambient ∧ s'.threshold = s.threshold ∧ s'.TIMEOUT = s.TIMEOUT ∧
    s'.outputPIN = s.outputPIN ∧ s'.analogPIN = s.analogPIN ∧
    s'.signalON = s.signalON ∧ s'.signalOFF = s.signalOFF ∧
    s'.normallyCLOSED = s.normallyCLOSED ∧ s'.sinceLastSettle = s.sinceLastSettle ∧
    s'.noiseLEVEL = s.noiseLEVEL ∧ s'.sensors = s.sensors := by
  have h1 := congrArg State.ambient h
  have h2 := congrArg State.threshold h
  have h3 := congrArg State.TIMEOUT h
  have h4 := congrArg State.outputPIN h
  have h5 := congrArg State.analogPIN h
  have h6 := congrArg State.signalON h
  have h7 := congrArg State.signalOFF h
  have h8 := congrArg State.normallyCLOSED h
  have h9 := congrArg State.sinceLastSettle h
  have h10 := congrArg State.noiseLEVEL h
  have h11 := congrArg State.sensors h
  exact ⟨h1, h2, h3, h4, h5, h6, h7, h8, h9, h10, h11⟩

@[simp] theorem millis_trace (e : Env) (s : State) :
    (millis e s).2.trace = s.trace ++ [Event.millis (e.clock s.ticks)] := rfl

@[simp] theorem millis_reads (e : Env) (s : State) : (millis e s).2.reads = s.reads := rfl

@[simp] theorem millis_ticks (e : Env) (s : State) : (millis e s).2.ticks = s.ticks + 1 := rfl

@[simp] theorem millis_value (e : Env) (s : State) : (millis e s).1 = e.clock s.ticks := rfl

/-! ## The polling loop of `performSignal` -/

/-- A run of the polling loop that ends changes no global but `reading` and
appends only sample and clock events. -/
theorem signalLoop_frame (e : Env) (st : Int) :
    ∀ (fuel : Nat) (s s' : State), signalLoop e st fuel s = some s' →
      s'.globals = s.globals ∧
      ∃ polls, s'.trace = s.trace ++ polls ∧ ∀ ev ∈ polls, ev.isWrite = false := by
  intro fuel
  induction fuel with
  | zero => intro s s' h; simp [signalLoop] at h
  | succ n ih =>
    intro s s' h
    simp only [signalLoop] at h
    split_ifs at h with h1 h2
    · cases h
      exact ⟨takeReading_globals e s, pollEvents e s.analogPIN s.reads,
        takeReading_trace e s, pollEvents_no_write e _ _⟩
    · cases h
      refine ⟨(millis_globals e _).trans (takeReading_globals e s),
        pollEvents e s.analogPIN s.reads ++ [Event.millis (e.clock s.ticks)], ?_, ?_⟩
      · simp
      · intro ev hev
        rcases List.mem_append.1 hev with hp | hm
        · exact pollEvents_no_write e _ _ ev hp
        · simp at hm; simp [hm, Event.isWrite]
    · obtain ⟨hg, polls, htr, hno⟩ := ih _ _ h
      refine ⟨hg.trans ((millis_globals e _).trans (takeReading_globals e s)),
        pollEvents e s.analogPIN s.reads ++ [Event.millis (e.clock s.ticks)] ++ polls, ?_, ?_⟩
      · simp [htr]
      · intro ev hev
        rcases List.mem_append.1 hev with hp | hm
        · rcases List.mem_append.1 hp with hp | hm
          · exact pollEvents_no_write e _ _ ev hp
          · simp at hm; simp [hm, Event.isWrite]
        · exact hno ev hm

/-- What `performSignal` does around the loop: the state on entry of the
loop and the state returned, in terms of the state the loop ends in. -/
theorem performSignal_some {e : Env} {fuel : Nat} {s s' : State}
    (h : performSignal e fuel s = some s') :
    ∃ s3, signalLoop e (e.clock s.ticks) fuel
        (digitalWrite s.outputPIN (onLevel s.normallyCLOSED) (resolvePolarity (millis e s).2))
        = some s3 ∧
      s' = digitalWrite s3.outputPIN s3.signalOFF s3 := by
  have hin : digitalWrite (resolvePolarity (millis e s).2).outputPIN
      (resolvePolarity (millis e s).2).signalON (resolvePolarity (millis e s).2)
      = digitalWrite s.outputPIN (onLevel s.normallyCLOSED) (resolvePolarity (millis e s).2) := by
    cases hnc : s.normallyCLOSED <;>
      simp [resolvePolarity, millis, onLevel, hnc]
  simp only [performSignal, millis_value] at h
  rw [hin] at h
  split at h
  · cases h
  · rename_i s3 hs3
    cases h
    exact ⟨s3, hs3, rfl⟩

theorem resolvePolarity_fields (s : State) :
    (resolvePolarity s).signalON = onLevel s.normallyCLOSED ∧
    (resolvePolarity s).signalOFF = offLevel s.normallyCLOSED ∧
    (resolvePolarity s).normallyCLOSED = s.normallyCLOSED ∧
    (resolvePolarity s).outputPIN = s.outputPIN ∧
    (resolvePolarity s).trace = s.trace ∧
    (resolvePolarity s).ambient = s.ambient ∧
    (resolvePolarity s).threshold = s.threshold ∧
    (resolvePolarity s).TIMEOUT = s.TIMEOUT ∧
    (resolvePolarity s).analogPIN = s.analogPIN ∧
    (resolvePolarity s).reads = s.reads ∧
    (resolvePolarity s).ticks = s.ticks := by
  cases hnc : s.normallyCLOSED <;> simp [resolvePolarity, onLevel, offLevel, hnc]

/-- The shape of every run of `performSignal` that returns. -/
theorem performSignal_shape {e : Env} {fuel : Nat} {s s' : State}
    (h : performSignal e fuel s = some s') :
    s'.signalON = onLevel s.normallyCLOSED ∧ s'.signalOFF = offLevel s.normallyCLOSED ∧
    s'.normallyCLOSED = s.normallyCLOSED ∧ s'.outputPIN = s.outputPIN ∧
    ∃ polls, (∀ ev ∈ polls, ev.isWrite = false) ∧
      s'.trace = s.trace ++ [Event.millis (e.clock s.ticks),
          Event.digitalWrite s.outputPIN (onLevel s.normallyCLOSED)] ++ polls ++
        [Event.digitalWrite s.outputPIN (offLevel s.normallyCLOSED)] := by
  obtain ⟨s3, hloop, rfl⟩ := performSignal_some h
  obtain ⟨hg, polls, htr, hno⟩ := signalLoop_frame e _ _ _ _ hloop
  obtain ⟨-, -, -, hout, -, hon, hoff, hnc, -, -, -⟩ := globals_fields hg
  obtain ⟨ron, roff, rnc, rout, rtr, -⟩ := resolvePolarity_fields (millis e s).2
  have e1 : s3.outputPIN = s.outputPIN := by rw [hout]; simpa [digitalWrite] using rout
  have e2 : s3.signalOFF = offLevel s.normallyCLOSED := by
    rw [hoff]; simpa [digitalWrite] using roff
  have e3 : s3.signalON = onLevel s.normallyCLOSED := by
    rw [hon]; simpa [digitalWrite] using ron
  have e4 : s3.normallyCLOSED = s.normallyCLOSED := by
    rw [hnc]; simpa [digitalWrite] using rnc
  refine ⟨by simpa [digitalWrite] using e3, by simpa [digitalWrite] using e2,
    by simpa [digitalWrite] using e4, by simpa [digitalWrite] using e1, polls, hno, ?_⟩
  simp [digitalWrite, htr, rtr, e1, e2]

end FSRTrigger

namespace FSRTrigger

/-- The loop leaves at its poll number `n` (from 0) on a reading that has
returned, when the `n` polls before it read high and did not time out. -/
theorem signalLoop_low (e : Env) (st : Int) :
    ∀ (n fuel : Nat) (s : State), n < fuel →
      (∀ j, j < n → s.ambient + s.threshold < avgAt e s.analogPIN (s.reads + 3 * j) ∧
        elapsedExceeds (e.clock (s.ticks + j)) st s.TIMEOUT = false) →
      avgAt e s.analogPIN (s.reads + 3 * n) ≤ s.ambient + s.threshold →
      ∃ s', signalLoop e st fuel s = some s' ∧ s'.reads = s.reads + 3 * (n + 1) ∧
        s'.ticks = s.ticks + n ∧ s'.reading = avgAt e s.analogPIN (s.reads + 3 * n) := by
  intro n
  induction n with
  | zero =>
    intro fuel s hf _ hlow
    obtain ⟨f, rfl⟩ : ∃ f, fuel = f + 1 := ⟨fuel - 1, by omega⟩
    refine ⟨takeReading e s, ?_, rfl, rfl, rfl⟩
    simp only [signalLoop]
    rw [if_pos]
    exact hlow
  | succ n ih =>
    intro fuel s hf hhigh hlow
    obtain ⟨f, rfl⟩ : ∃ f, fuel = f + 1 := ⟨fuel - 1, by omega⟩
    have h0 := hhigh 0 (by omega)
    have hstep : signalLoop e st (f + 1) s = signalLoop e st f (millis e (takeReading e s)).2 := by
      simp only [signalLoop]
      rw [if_neg, if_neg]
      · simpa using h0.2
      · exact not_le.2 h0.1
    have hidx : ∀ j, s.reads + 3 + 3 * j = s.reads + 3 * (j + 1) := fun j => by omega
    have htk : ∀ j, s.ticks + 1 + j = s.ticks + (j + 1) := fun j => by omega
    obtain ⟨s', hs', hr, ht, hv⟩ := ih f (millis e (takeReading e s)).2 (by omega)
      (by
        intro j hj
        have := hhigh (j + 1) (by omega)
        show s.ambient + s.threshold < avgAt e s.analogPIN (s.reads + 3 + 3 * j) ∧
          elapsedExceeds (e.clock (s.ticks + 1 + j)) st s.TIMEOUT = false
        rw [hidx, htk]; exact this)
      (by
        show avgAt e s.analogPIN (s.reads + 3 + 3 * n) ≤ s.ambient + s.threshold
        rw [hidx]; exact hlow)
    refine ⟨s', hstep.trans hs', ?_, ?_, ?_⟩
    · rw [hr]; show s.reads + 3 + 3 * (n + 1) = _; omega
    · rw [ht]; show s.ticks + 1 + n = _; omega
    · rw [hv]; show avgAt e s.analogPIN (s.reads + 3 + 3 * n) = _; rw [hidx]

/-- The loop leaves at its poll number `n` (from 0) by the timeout test, when
every poll up to it reads high and no earlier poll timed out. -/
theorem signalLoop_timeout (e : Env) (st : Int) :
    ∀ (n fuel : Nat) (s : State), n < fuel →
      (∀ j, j ≤ n → s.ambient + s.threshold < avgAt e s.analogPIN (s.reads + 3 * j)) →
      (∀ j, j < n → elapsedExceeds (e.clock (s.ticks + j)) st s.TIMEOUT = false) →
      elapsedExceeds (e.clock (s.ticks + n)) st s.TIMEOUT = true →
      ∃ s', signalLoop e st fuel s = some s' ∧ s'.reads = s.reads + 3 * (n + 1) ∧
        s'.ticks = s.ticks + (n + 1) := by
  intro n
  induction n with
  | zero =>
    intro fuel s hf hhigh _ hout
    obtain ⟨f, rfl⟩ : ∃ f, fuel = f + 1 := ⟨fuel - 1, by omega⟩
    refine ⟨(millis e (takeReading e s)).2, ?_, rfl, rfl⟩
    simp only [signalLoop]
    rw [if_neg, if_pos]
    · simpa using hout
    · exact not_le.2 (hhigh 0 (le_refl 0))
  | succ n ih =>
    intro fuel s hf hhigh hno hout
    obtain ⟨f, rfl⟩ : ∃ f, fuel = f + 1 := ⟨fuel - 1, by omega⟩
    have hstep : signalLoop e st (f + 1) s = signalLoop e st f (millis e (takeReading e s)).2 := by
      simp only [signalLoop]
      rw [if_neg, if_neg]
      · simpa using hno 0 (by omega)
      · exact not_le.2 (hhigh 0 (by omega))
    have hidx : ∀ j, s.reads + 3 + 3 * j = s.reads + 3 * (j + 1) := fun j => by omega
    have htk : ∀ j, s.ticks + 1 + j = s.ticks + (j + 1) := fun j => by omega
    obtain ⟨s', hs', hr, ht⟩ := ih f (millis e (takeReading e s)).2 (by omega)
      (by
        intro j hj
        show s.ambient + s.threshold < avgAt e s.analogPIN (s.reads + 3 + 3 * j)
        rw [hidx]; exact hhigh (j + 1) (by omega))
      (by
        intro j hj
        show elapsedExceeds (e.clock (s.ticks + 1 + j)) st s.TIMEOUT = false
        rw [htk]; exact hno (j + 1) (by omega))
      (by
        show elapsedExceeds (e.clock (s.ticks + 1 + n)) st s.TIMEOUT = true
        rw [htk]; exact hout)
    refine ⟨s', hstep.trans hs', ?_, ?_⟩
    · rw [hr]; show s.reads + 3 + 3 * (n + 1) = _; omega
    · rw [ht]; show s.ticks + 1 + (n + 1) = _; omega

/-- A run of the loop that ends makes `performSignal` return, with the OFF
write appended. -/
theorem performSignal_of_loop {e : Env} {fuel : Nat} {s s3 : State}
    (h : signalLoop e (e.clock s.ticks) fuel
        (digitalWrite s.outputPIN (onLevel s.normallyCLOSED) (resolvePolarity (millis e s).2))
        = some s3) :
    performSignal e fuel s = some (digitalWrite s3.outputPIN s3.signalOFF s3) := by
  have hin : digitalWrite (resolvePolarity (millis e s).2).outputPIN
      (resolvePolarity (millis e s).2).signalON (resolvePolarity (millis e s).2)
      = digitalWrite s.outputPIN (onLevel s.normallyCLOSED) (resolvePolarity (millis e s).2) := by
    cases hnc : s.normallyCLOSED <;>
      simp [resolvePolarity, millis, onLevel, hnc]
  simp only [performSignal, millis_value]
  rw [hin, h]

/-- The state in which `performSignal` enters its loop, seen from the state
on entry of the function. -/
theorem loopEntry_fields (e : Env) (s : State) :
    let s2 := digitalWrite s.outputPIN (onLevel s.normallyCLOSED) (resolvePolarity (millis e s).2)
    s2.ambient = s.ambient ∧ s2.threshold = s.threshold ∧ s2.TIMEOUT = s.TIMEOUT ∧
    s2.analogPIN = s.analogPIN ∧ s2.reads = s.reads ∧ s2.ticks = s.ticks + 1 := by
  obtain ⟨-, -, -, -, -, ha, ht, hT, hp, hr, hk⟩ := resolvePolarity_fields (millis e s).2
  exact ⟨ha, ht, hT, hp, hr, hk⟩

/-- When `performSignal` has returned, the output pin is at its OFF level. -/
theorem performSignal_level {e : Env} {fuel : Nat} {s s' : State}
    (h : performSignal e fuel s = some s') :
    levelOf s.outputPIN s'.trace = some (offLevel s.normallyCLOSED) := by
  obtain ⟨-, -, -, -, polls, hno, htr⟩ := performSignal_shape h
  rw [htr]
  simp [levelOf, writesTo, writesTo_of_no_write s.outputPIN polls hno]

/-! ## Detection and signal emission -/

/-- C1: when the averaged reading (the truncated mean of the three samples
taken) is at most `ambient + threshold`, `processInput` returns, whatever the
fuel, having appended only the three sample events: the writes to every pin
are those made before, no clock is read (so `performSignal`, which starts by
reading the clock, is not entered) and the polarity levels are untouched. -/
theorem processInput_quiet (e : Env) (fuel : Nat) (s : State)
    (h : avgAt e s.analogPIN s.reads ≤ s.ambient + s.threshold) :
    ∃ s', processInput e fuel s = some s' ∧
      s'.trace = s.trace ++ pollEvents e s.analogPIN s.reads ∧
      (∀ pin, writesTo pin s'.trace = writesTo pin s.trace) ∧
      (∀ pin, levelOf pin s'.trace = levelOf pin s.trace) ∧
      s'.ticks = s.ticks ∧ s'.signalON = s.signalON ∧ s'.signalOFF = s.signalOFF := by
  have hw : ∀ pin, writesTo pin (takeReading e s).trace = writesTo pin s.trace := by
    intro pin
    rw [takeReading_trace, writesTo_append,
      writesTo_of_no_write pin _ (pollEvents_no_write e s.analogPIN s.reads), List.append_nil]
  refine ⟨takeReading e s, ?_, takeReading_trace e s, hw, ?_, rfl, rfl, rfl⟩
  · have hr : (takeReading e s).reading = avgAt e s.analogPIN s.reads := rfl
    have ha : (takeReading e s).ambient = s.ambient := rfl
    have ht : (takeReading e s).threshold = s.threshold := rfl
    simp only [processInput]
    rw [if_neg]
    rw [hr, ha, ht]
    exact not_lt.2 h
  · intro pin
    simp only [levelOf, hw pin]

theorem processInput_quiet_witness :
    avgAt (steadyEnv 520) scenarioState.analogPIN scenarioState.reads
        ≤ scenarioState.ambient + scenarioState.threshold ∧
    ∃ s', processInput (steadyEnv 520) 0 scenarioState = some s' ∧
      s'.trace = scenarioState.trace
        ++ pollEvents (steadyEnv 520) scenarioState.analogPIN scenarioState.reads ∧
      (∀ pin, writesTo pin s'.trace = writesTo pin scenarioState.trace) ∧
      (∀ pin, levelOf pin s'.trace = levelOf pin scenarioState.trace) ∧
      s'.ticks = scenarioState.ticks ∧ s'.signalON = scenarioState.signalON ∧
      s'.signalOFF = scenarioState.signalOFF :=
  ⟨by decide, processInput_quiet (steadyEnv 520) 0 scenarioState (by decide)⟩

/-- C2: every run of `performSignal` that returns has appended to the trace
the clock read of `startTime`, the write of the ON level to the output pin,
then events none of which is a write, then the write of the OFF level to the
output pin.  So the writes to the output pin are exactly ON then OFF, the ON
write precedes every sample, and the pin is at its OFF level on return. -/
theorem performSignal_two_writes (e : Env) (fuel : Nat) (s s' : State)
    (h : performSignal e fuel s = some s') :
    (∃ polls, (∀ ev ∈ polls, ev.isWrite = false) ∧
      s'.trace = s.trace ++ [Event.millis (e.clock s.ticks),
          Event.digitalWrite s.outputPIN (onLevel s.normallyCLOSED)] ++ polls ++
        [Event.digitalWrite s.outputPIN (offLevel s.normallyCLOSED)]) ∧
    writesTo s.outputPIN s'.trace
      = writesTo s.outputPIN s.trace ++ [onLevel s.normallyCLOSED, offLevel s.normallyCLOSED] ∧
    levelOf s.outputPIN s'.trace = some (offLevel s.normallyCLOSED) := by
  obtain ⟨-, -, -, -, polls, hno, htr⟩ := performSignal_shape h
  have hw : writesTo s.outputPIN s'.trace
      = writesTo s.outputPIN s.trace ++ [onLevel s.normallyCLOSED, offLevel s.normallyCLOSED] := by
    rw [htr]
    simp [writesTo, writesTo_of_no_write s.outputPIN polls hno]
  refine ⟨⟨polls, hno, htr⟩, hw, ?_⟩
  simp [levelOf, hw]

theorem performSignal_two_writes_witness :
    ∃ s', performSignal stuckEnv 2 scenarioState = some s' ∧
      writesTo scenarioState.outputPIN s'.trace
        = writesTo scenarioState.outputPIN scenarioState.trace ++ [HIGH, LOW] ∧
      levelOf scenarioState.outputPIN s'.trace = some LOW := by
  have hs : (performSignal stuckEnv 2 scenarioState).isSome = true := by decide
  obtain ⟨s', hs'⟩ := Option.isSome_iff_exists.1 hs
  exact ⟨s', hs', (performSignal_two_writes stuckEnv 2 scenarioState s' hs').2⟩

/-- C9: a run of `performSignal` that returns leaves `signalON = LOW` and
`signalOFF = HIGH` when `normallyCLOSED` is true, `signalON = HIGH` and
`signalOFF = LOW` when it is false; the two writes to the output pin carry
exactly these levels; ON differs from OFF; and a second run from the
resulting state resolves the same pair (the polarity block is idempotent). -/
theorem performSignal_polarity (e : Env) (fuel : Nat) (s s' : State)
    (h : performSignal e fuel s = some s') :
    (s.normallyCLOSED = true → s'.signalON = LOW ∧ s'.signalOFF = HIGH) ∧
    (s.normallyCLOSED = false → s'.signalON = HIGH ∧ s'.signalOFF = LOW) ∧
    writesTo s.outputPIN s'.trace
      = writesTo s.outputPIN s.trace ++ [s'.signalON, s'.signalOFF] ∧
    s'.signalON ≠ s'.signalOFF ∧
    (∀ e2 fuel2 s'', performSignal e2 fuel2 s' = some s'' →
      s''.signalON = s'.signalON ∧ s''.signalOFF = s'.signalOFF) ∧
    resolvePolarity (resolvePolarity s) = resolvePolarity s := by
  obtain ⟨hon, hoff, hnc, -, polls, hno, htr⟩ := performSignal_shape h
  refine ⟨?_, ?_, ?_, ?_, ?_, ?_⟩
  · intro hc; rw [hon, hoff, hc]; exact ⟨rfl, rfl⟩
  · intro hc; rw [hon, hoff, hc]; exact ⟨rfl, rfl⟩
  · rw [htr, hon, hoff]
    simp [writesTo, writesTo_of_no_write s.outputPIN polls hno]
  · rw [hon, hoff]; cases s.normallyCLOSED <;> decide
  · intro e2 fuel2 s'' h2
    obtain ⟨hon2, hoff2, -⟩ := performSignal_shape h2
    rw [hon2, hoff2, hon, hoff, hnc]; exact ⟨rfl, rfl⟩
  · cases hc : s.normallyCLOSED <;> simp [resolvePolarity, hc]

theorem performSignal_polarity_witness :
    ∃ s', performSignal (steadyEnv 520) 1 closedState = some s' ∧
      s'.signalON = LOW ∧ s'.signalOFF = HIGH ∧
      writesTo closedState.outputPIN s'.trace
        = writesTo closedState.outputPIN closedState.trace ++ [s'.signalON, s'.signalOFF] := by
  have hs : (performSignal (steadyEnv 520) 1 closedState).isSome = true := by decide
  obtain ⟨s', hs'⟩ := Option.isSome_iff_exists.1 hs
  have hp := performSignal_polarity (steadyEnv 520) 1 closedState s' hs'
  exact ⟨s', hs', (hp.1 rfl).1, (hp.1 rfl).2, hp.2.2.1⟩

/-- C7: if the first `n` averaged readings of `performSignal` are above
`ambient + threshold` with no timeout at those polls and reading number
`n + 1` is at most `ambient + threshold`, then `performSignal` returns (given
fuel for `n + 1` polls) having taken exactly `n + 1` averaged readings, that
is `3 * (n + 1)` samples, and `n` clock reads inside the loop; `reading` holds
that last average and the output pin is at its OFF level. -/
theorem performSignal_stops_at_first_low (e : Env) (s : State) (n fuel : Nat) (hf : n < fuel)
    (hhigh : ∀ j, j < n → s.ambient + s.threshold < avgAt e s.analogPIN (s.reads + 3 * j) ∧
      elapsedExceeds (e.clock (s.ticks + 1 + j)) (e.clock s.ticks) s.TIMEOUT = false)
    (hlow : avgAt e s.analogPIN (s.reads + 3 * n) ≤ s.ambient + s.threshold) :
    ∃ s', performSignal e fuel s = some s' ∧ s'.reads = s.reads + 3 * (n + 1) ∧
      s'.ticks = s.ticks + 1 + n ∧ s'.reading = avgAt e s.analogPIN (s.reads + 3 * n) ∧
      levelOf s.outputPIN s'.trace = some (offLevel s.normallyCLOSED) := by
  obtain ⟨ha, ht, hT, hp, hr, hk⟩ := loopEntry_fields e s
  obtain ⟨s3, hloop, h3r, h3t, h3v⟩ := signalLoop_low e (e.clock s.ticks) n fuel
    (digitalWrite s.outputPIN (onLevel s.normallyCLOSED) (resolvePolarity (millis e s).2)) hf
    (by rw [ha, ht, hT, hp, hr, hk]; exact hhigh)
    (by rw [ha, ht, hp, hr]; exact hlow)
  have hret := performSignal_of_loop hloop
  refine ⟨_, hret, ?_, ?_, ?_, performSignal_level hret⟩
  · show s3.reads = _; rw [h3r, hr]
  · show s3.ticks = _; rw [h3t, hk]
  · show s3.reading = _; rw [h3v, hp, hr]

theorem performSignal_stops_at_first_low_witness :
    avgAt (steadyEnv 520) scenarioState.analogPIN (scenarioState.reads + 3 * 0)
        ≤ scenarioState.ambient + scenarioState.threshold ∧
    ∃ s', performSignal (steadyEnv 520) 1 scenarioState = some s' ∧
      s'.reads = scenarioState.reads + 3 * (0 + 1) ∧ s'.ticks = scenarioState.ticks + 1 + 0 ∧
      s'.reading = avgAt (steadyEnv 520) scenarioState.analogPIN (scenarioState.reads + 3 * 0) ∧
      levelOf scenarioState.outputPIN s'.trace = some (offLevel scenarioState.normallyCLOSED) :=
  ⟨by decide, performSignal_stops_at_first_low (steadyEnv 520) scenarioState 0 1 (by decide)
    (fun j hj => absurd hj (Nat.not_lt_zero j)) (by decide)⟩

/-- C8, as the code behaves: when the averaged readings stay above
`ambient + threshold`, `performSignal` returns by timeout at the first poll at
which the elapsed time, computed modulo `2^32`, is strictly greater than
`TIMEOUT`: poll number `n + 1` if the test failed at the `n` polls before.
A poll at which the elapsed time equals `TIMEOUT` does not pass the test, so
the loop polls again with the output asserted. -/
theorem performSignal_timeout_exit (e : Env) (s : State) (n fuel : Nat) (hf : n < fuel)
    (hhigh : ∀ j, j ≤ n → s.ambient + s.threshold < avgAt e s.analogPIN (s.reads + 3 * j))
    (hno : ∀ j, j < n →
      elapsedExceeds (e.clock (s.ticks + 1 + j)) (e.clock s.ticks) s.TIMEOUT = false)
    (hout : elapsedExceeds (e.clock (s.ticks + 1 + n)) (e.clock s.ticks) s.TIMEOUT = true) :
    (∃ s', performSignal e fuel s = some s' ∧ s'.reads = s.reads + 3 * (n + 1) ∧
      s'.ticks = s.ticks + 1 + (n + 1) ∧
      levelOf s.outputPIN s'.trace = some (offLevel s.normallyCLOSED)) ∧
    (∀ (now : Nat) (since limit : Int), ((now : Int) - since) % ULONG = limit % ULONG →
      elapsedExceeds now since limit = false) := by
  obtain ⟨ha, ht, hT, hp, hr, hk⟩ := loopEntry_fields e s
  obtain ⟨s3, hloop, h3r, h3t⟩ := signalLoop_timeout e (e.clock s.ticks) n fuel
    (digitalWrite s.outputPIN (onLevel s.normallyCLOSED) (resolvePolarity (millis e s).2)) hf
    (by rw [ha, ht, hp, hr]; exact hhigh)
    (by rw [hT, hk]; exact hno)
    (by rw [hT, hk]; exact hout)
  have hret := performSignal_of_loop hloop
  refine ⟨⟨_, hret, ?_, ?_, performSignal_level hret⟩, ?_⟩
  · show s3.reads = _; rw [h3r, hr]
  · show s3.ticks = _; rw [h3t, hk]
  · intro now since limit heq
    simp [elapsedExceeds, heq]

theorem performSignal_timeout_exit_witness :
    ∃ s', performSignal stuckEnv 2 scenarioState = some s' ∧
      s'.reads = scenarioState.reads + 3 * (1 + 1) ∧
      s'.ticks = scenarioState.ticks + 1 + (1 + 1) ∧
      levelOf scenarioState.outputPIN s'.trace = some (offLevel scenarioState.normallyCLOSED) :=
  (performSignal_timeout_exit stuckEnv scenarioState 1 2 (by decide)
    (fun j _ => by simp [avgAt, stuckEnv, listEnv, scenarioState, zeroState]; decide)
    (fun j hj => by
      have hj0 : j = 0 := by omega
      subst hj0; decide)
    (by decide)).1

/-- C8, as stated, fails: with `TIMEOUT = 10`, readings that stay at 600 and
clock reads 0, 10, 11, the elapsed time at the first poll is exactly
`TIMEOUT`, yet the loop has not left after that poll (one poll of fuel gives
no result) and `performSignal` returns only after a second poll, at 11 ms. -/
theorem performSignal_polls_at_timeout :
    (∀ j, scenarioState.ambient + scenarioState.threshold
      < avgAt stuckEnv scenarioState.analogPIN j) ∧
    ((stuckEnv.clock 1 : Int) - (stuckEnv.clock 0 : Int)) % ULONG = scenarioState.TIMEOUT ∧
    performSignal stuckEnv 1 scenarioState = none ∧
    (performSignal stuckEnv 2 scenarioState).map (fun s => (s.reads, s.ticks)) = some (6, 3) := by
  refine ⟨fun j => ?_, by decide, by decide, by decide⟩
  simp [avgAt, stuckEnv, listEnv, scenarioState, zeroState]
  decide

/-! ## The calibrator -/

theorem primeStep_globals (e : Env) (sl : State × SettleLocals) :
    (primeStep e sl).1.globals = sl.1.globals := rfl

theorem primeStep_locals (e : Env) (sl : State × SettleLocals) :
    (primeStep e sl).2.ambient = sl.2.newambient ∧
    (primeStep e sl).2.newambient = sl.2.newambient ∧
    (primeStep e sl).2.delta = sl.2.delta ∧
    (primeStep e sl).2.analogPIN = sl.2.analogPIN :=
  ⟨rfl, rfl, rfl, rfl⟩

theorem primeLoop_globals (e : Env) :
    ∀ (n : Nat) (sl : State × SettleLocals), (primeLoop e n sl).1.globals = sl.1.globals := by
  intro n
  induction n with
  | zero => intro sl; rfl
  | succ n ih => intro sl; exact (ih (primeStep e sl)).trans (primeStep_globals e sl)

theorem primeLoop_locals (e : Env) :
    ∀ (n : Nat) (sl : State × SettleLocals),
      (primeLoop e n sl).2.newambient = sl.2.newambient ∧
      (primeLoop e n sl).2.delta = sl.2.delta ∧
      (primeLoop e n sl).2.analogPIN = sl.2.analogPIN := by
  intro n
  induction n with
  | zero => intro sl; exact ⟨rfl, rfl, rfl⟩
  | succ n ih =>
    intro sl
    obtain ⟨h1, h2, h3⟩ := ih (primeStep e sl)
    obtain ⟨-, p1, p2, p3⟩ := primeStep_locals e sl
    exact ⟨h1.trans p1, h2.trans p2, h3.trans p3⟩

/-- After at least one iteration of the priming loop the local `ambient` is
the value `newambient` had on entry: line 33 overwrites the smoothed value. -/
theorem primeLoop_ambient (e : Env) :
    ∀ (n : Nat) (sl : State × SettleLocals),
      (primeLoop e (n + 1) sl).2.ambient = sl.2.newambient := by
  intro n
  induction n with
  | zero => intro sl; rfl
  | succ n ih =>
    intro sl
    exact (ih (primeStep e sl)).trans (primeStep_locals e sl).2.1

theorem noiseStep_globals (e : Env) (sl : State × SettleLocals) :
    (noiseStep e sl).1.globals = sl.1.globals := rfl

theorem noiseStep_locals (e : Env) (sl : State × SettleLocals) :
    (noiseStep e sl).2.ambient = sl.2.ambient ∧
    (noiseStep e sl).2.analogPIN = sl.2.analogPIN ∧
    (noiseStep e sl).2.newambient = Int.tdiv (sl.2.ambient + e.sample sl.1.PIN sl.1.reads) 2 ∧
    (noiseStep e sl).2.newdelta = |(noiseStep e sl).2.newambient - sl.2.ambient| ∧
    (noiseStep e sl).2.delta
      = Int.tdiv (|(noiseStep e sl).2.newambient - sl.2.ambient| + sl.2.delta) 2 := by
  simp only [noiseStep, analogRead]
  split_ifs with h
  · refine ⟨rfl, rfl, rfl, ?_, ?_⟩
    · simp only; rw [abs_of_neg h]; ring
    · simp only; rw [abs_of_neg h]; ring_nf
  · refine ⟨rfl, rfl, rfl, ?_, ?_⟩
    · simp only; rw [abs_of_nonneg (not_lt.1 h)]
    · simp only; rw [abs_of_nonneg (not_lt.1 h)]

theorem noiseIter_globals (e : Env) :
    ∀ (n : Nat) (sl : State × SettleLocals), (noiseIter e n sl).1.globals = sl.1.globals := by
  intro n
  induction n with
  | zero => intro sl; rfl
  | succ n ih => intro sl; exact (ih (noiseStep e sl)).trans (noiseStep_globals e sl)

theorem noiseIter_locals (e : Env) :
    ∀ (n : Nat) (sl : State × SettleLocals),
      (noiseIter e n sl).2.ambient = sl.2.ambient ∧
      (noiseIter e n sl).2.analogPIN = sl.2.analogPIN := by
  intro n
  induction n with
  | zero => intro sl; exact ⟨rfl, rfl⟩
  | succ n ih =>
    intro sl
    obtain ⟨h1, h2⟩ := ih (noiseStep e sl)
    obtain ⟨p1, p2, -⟩ := noiseStep_locals e sl
    exact ⟨h1.trans p1, h2.trans p2⟩

/-- The noise loop returns exactly the state after the first execution of its
body that leaves `delta <= noiseLEVEL`. -/
theorem noiseLoop_iff (e : Env) :
    ∀ (fuel : Nat) (sl r : State × SettleLocals),
      noiseLoop e fuel sl = some r ↔
        ∃ k, k < fuel ∧ r = noiseIter e (k + 1) sl ∧
          (noiseIter e (k + 1) sl).2.delta ≤ sl.1.noiseLEVEL ∧
          ∀ j, j < k → sl.1.noiseLEVEL < (noiseIter e (j + 1) sl).2.delta := by
  intro fuel
  induction fuel with
  | zero =>
    intro sl r
    simp [noiseLoop]
  | succ f ih =>
    intro sl r
    have hL : (noiseStep e sl).1.noiseLEVEL = sl.1.noiseLEVEL := rfl
    simp only [noiseLoop]
    constructor
    · intro h
      split_ifs at h with hc
      · cases h
        exact ⟨0, Nat.succ_pos f, rfl, by rw [← hL]; exact hc,
          fun j hj => absurd hj (Nat.not_lt_zero j)⟩
      · obtain ⟨k, hk, hr, hd, hb⟩ := (ih _ r).1 h
        refine ⟨k + 1, Nat.succ_lt_succ hk, hr, by rw [← hL]; exact hd, ?_⟩
        intro j hj
        cases j with
        | zero => rw [← hL]; exact not_le.1 hc
        | succ j => rw [← hL]; exact hb j (Nat.lt_of_succ_lt_succ hj)
    · rintro ⟨k, hk, hr, hd, hb⟩
      cases k with
      | zero =>
        rw [if_pos (by rw [hL]; exact hd), hr]
        rfl
      | succ k =>
        rw [if_neg (by rw [hL]; exact not_le.2 (hb 0 (Nat.succ_pos k)))]
        refine (ih _ r).2 ⟨k, Nat.lt_of_succ_lt_succ hk, hr, by rw [hL]; exact hd, ?_⟩
        intro j hj
        rw [hL]
        exact hb (j + 1) (Nat.succ_lt_succ hj)

/-- A pass of the sensor loop that ends leaves the noise estimate at or below
the ceiling and keeps the globals other than `PIN` and the pass counter. -/
theorem settlePass_some {e : Env} {fuel : Nat} {sl r : State × SettleLocals}
    (h : settlePass e fuel sl = some r) :
    r.2.delta ≤ sl.1.noiseLEVEL ∧ r.2.analogPIN = sl.2.analogPIN ∧
    r.1.sensors = sl.1.sensors ∧ r.1.noiseLEVEL = sl.1.noiseLEVEL ∧
    r.1.ambient = sl.1.ambient := by
  simp only [settlePass] at h
  obtain ⟨k, -, hr, hd, -⟩ := (noiseLoop_iff e fuel _ r).1 h
  have hg := (noiseIter_globals e (k + 1) _).trans
    (primeLoop_globals e 11 ({ sl.1 with PIN := e.pinAt sl.2.analogPIN sl.1.analogIDX }, sl.2))
  obtain ⟨ha, -, -, -, -, -, -, -, -, hn, hs⟩ := globals_fields hg
  have hL := (globals_fields (primeLoop_globals e 11
    ({ sl.1 with PIN := e.pinAt sl.2.analogPIN sl.1.analogIDX }, sl.2))).2.2.2.2.2.2.2.2.2.1
  subst hr
  refine ⟨?_, ?_, hs, hn, ha⟩
  · rw [hL] at hd; exact hd
  · rw [(noiseIter_locals e (k + 1) _).2, (primeLoop_locals e 11 _).2.2]

/-- Every pass that the sensor loop has to make, when the loop ends, has
ended with the noise estimate at or below the ceiling. -/
theorem sensorLoop_passes (e : Env) (fuel : Nat) :
    ∀ (n : Nat) (sl r : State × SettleLocals), sensorLoop e fuel n sl = some r →
      ∀ i : Nat, sl.2.analogPIN + (i : Int) < sl.1.sensors →
        ∃ p q, passEntry e fuel i sl = some p ∧ p.2.analogPIN = sl.2.analogPIN + (i : Int) ∧
          settlePass e fuel p = some q ∧ q.2.delta ≤ sl.1.noiseLEVEL := by
  intro n
  induction n with
  | zero =>
    intro sl r h i hi
    have hc : sl.2.analogPIN < sl.1.sensors := by omega
    simp [sensorLoop, hc] at h
  | succ n ih =>
    intro sl r h i hi
    have hc : sl.2.analogPIN < sl.1.sensors := by omega
    simp only [sensorLoop] at h
    rw [if_pos hc] at h
    cases hp : settlePass e fuel sl with
    | none => rw [hp] at h; cases h
    | some q =>
      rw [hp] at h
      obtain ⟨hd, hpin, hs, hn, -⟩ := settlePass_some hp
      cases i with
      | zero => exact ⟨sl, q, rfl, by simp, hp, hd⟩
      | succ i =>
        obtain ⟨p', q', h1, h2, h3, h4⟩ := ih _ r h i (by
          show q.2.analogPIN + 1 + (i : Int) < q.1.sensors
          rw [hpin, hs]; push_cast at hi; omega)
        refine ⟨p', q', ?_, ?_, h3, ?_⟩
        · simp only [passEntry]; rw [hp]; exact h1
        · rw [h2]; show q.2.analogPIN + 1 + (i : Int) = _; rw [hpin]; push_cast; omega
        · rw [← hn]; exact h4

/-- The sensor loop never assigns the global `ambient`. -/
theorem sensorLoop_ambient (e : Env) (fuel : Nat) :
    ∀ (n : Nat) (sl r : State × SettleLocals), sensorLoop e fuel n sl = some r →
      r.1.ambient = sl.1.ambient := by
  intro n
  induction n with
  | zero =>
    intro sl r h
    simp only [sensorLoop] at h
    split_ifs at h
    cases h; rfl
  | succ n ih =>
    intro sl r h
    simp only [sensorLoop] at h
    split_ifs at h
    · cases hp : settlePass e fuel sl with
      | none => rw [hp] at h; cases h
      | some q =>
        rw [hp] at h
        exact (ih _ r h).trans (settlePass_some hp).2.2.2.2
    · cases h; rfl

/-- A run of `performSettle` that returns leaves the global `ambient`, the
baseline the detector compares against, as it was. -/
theorem performSettle_ambient {e : Env} {fuel : Nat} {s s' : State}
    (h : performSettle e fuel s = some s') : s'.ambient = s.ambient := by
  simp only [performSettle] at h
  split at h
  · cases h
  · rename_i sl hsl
    cases h
    exact sensorLoop_ambient e fuel _ _ _ hsl

/-- C6: each execution of the noise loop's body computes
`newambient = trunc((ambient + sample) / 2)`, `newdelta = |newambient - ambient|`
and folds `delta = trunc((newdelta + delta) / 2)`; the loop returns exactly
the state after the first execution that leaves `delta <= noiseLEVEL`, every
earlier one having left `delta > noiseLEVEL`; and when `performSettle` returns,
each pass `i < sensors` of the sensor loop has ended with
`delta <= noiseLEVEL`. -/
theorem noiseLoop_exit (e : Env) :
    (∀ sl : State × SettleLocals,
      (noiseStep e sl).2.newambient = Int.tdiv (sl.2.ambient + e.sample sl.1.PIN sl.1.reads) 2 ∧
      (noiseStep e sl).2.newdelta = |(noiseStep e sl).2.newambient - sl.2.ambient| ∧
      (noiseStep e sl).2.delta
        = Int.tdiv (|(noiseStep e sl).2.newambient - sl.2.ambient| + sl.2.delta) 2) ∧
    (∀ (fuel : Nat) (sl r : State × SettleLocals),
      noiseLoop e fuel sl = some r ↔
        ∃ k, k < fuel ∧ r = noiseIter e (k + 1) sl ∧
          (noiseIter e (k + 1) sl).2.delta ≤ sl.1.noiseLEVEL ∧
          ∀ j, j < k → sl.1.noiseLEVEL < (noiseIter e (j + 1) sl).2.delta) ∧
    (∀ (fuel : Nat) (s s' : State), performSettle e fuel s = some s' →
      ∀ i : Nat, (i : Int) < s.sensors →
        ∃ p q, passEntry e fuel i ({ s with analogIDX := 0 }, SettleLocals.fresh) = some p ∧
          p.2.analogPIN = (i : Int) ∧ settlePass e fuel p = some q ∧
          q.2.delta ≤ s.noiseLEVEL) := by
  refine ⟨fun sl => (noiseStep_locals e sl).2.2, noiseLoop_iff e, ?_⟩
  intro fuel s s' h i hi
  simp only [performSettle] at h
  split at h
  · cases h
  · rename_i sl hsl
    obtain ⟨p, q, h1, h2, h3, h4⟩ := sensorLoop_passes e fuel _ _ _ hsl i (by
      show (0 : Int) + (i : Int) < s.sensors
      omega)
    refine ⟨p, q, h1, ?_, h3, h4⟩
    rw [h2]; show (0 : Int) + (i : Int) = _; omega

theorem noiseLoop_exit_witness :
    ∃ s', performSettle (steadyEnv 4) 1 twoSensorState = some s' ∧
      ∀ i : Nat, (i : Int) < twoSensorState.sensors →
        ∃ p q, passEntry (steadyEnv 4) 1 i
            ({ twoSensorState with analogIDX := 0 }, SettleLocals.fresh) = some p ∧
          p.2.analogPIN = (i : Int) ∧ settlePass (steadyEnv 4) 1 p = some q ∧
          q.2.delta ≤ twoSensorState.noiseLEVEL := by
  have hs : (performSettle (steadyEnv 4) 1 twoSensorState).isSome = true := by decide
  obtain ⟨s', hs'⟩ := Option.isSome_iff_exists.1 hs
  exact ⟨s', hs', (noiseLoop_exit (steadyEnv 4)).2.2 1 twoSensorState s' hs'⟩

/-! ## Calibration on concrete inputs -/

/-- On a steady input `V ≥ 0`, with the local `ambient` at 0, one execution of
the noise loop's body replaces `delta` by `(V / 2 + delta) / 2`. -/
theorem noiseStep_steady (V : Int) (hV : 0 ≤ V) (sl : State × SettleLocals)
    (ha : sl.2.ambient = 0) (hd : 0 ≤ sl.2.delta) :
    (noiseStep (steadyEnv V) sl).2.delta = (V / 2 + sl.2.delta) / 2 := by
  obtain ⟨-, -, hn, -, hdel⟩ := noiseStep_locals (steadyEnv V) sl
  have hs : (steadyEnv V).sample sl.1.PIN sl.1.reads = V := rfl
  rw [ha, hs, zero_add, Int.tdiv_eq_ediv hV (by decide)] at hn
  rw [hdel, hn, ha, sub_zero, abs_of_nonneg (by omega),
    Int.tdiv_eq_ediv (by omega) (by decide)]

/-- On a steady input `V ≥ 0`, with the local `ambient` at 0 and `delta ≥ 0`
on entry, `delta` is at least `V / 2 / 2` after every execution of the noise
loop's body, and `ambient` is still 0. -/
theorem noiseIter_steady (V : Int) (hV : 0 ≤ V) :
    ∀ (n : Nat) (sl : State × SettleLocals), sl.2.ambient = 0 → 0 ≤ sl.2.delta →
      (noiseIter (steadyEnv V) (n + 1) sl).2.ambient = 0 ∧
      V / 2 / 2 ≤ (noiseIter (steadyEnv V) (n + 1) sl).2.delta := by
  intro n
  induction n with
  | zero =>
    intro sl ha hd
    refine ⟨(noiseStep_locals (steadyEnv V) sl).1.trans ha, ?_⟩
    show V / 2 / 2 ≤ (noiseStep (steadyEnv V) sl).2.delta
    rw [noiseStep_steady V hV sl ha hd]
    omega
  | succ n ih =>
    intro sl ha hd
    have hd1 := noiseStep_steady V hV sl ha hd
    exact ih (noiseStep (steadyEnv V) sl) ((noiseStep_locals (steadyEnv V) sl).1.trans ha)
      (by rw [hd1]; omega)

/-- On a steady input whose quarter exceeds the noise ceiling the noise loop
does not end, whatever the fuel. -/
theorem noiseLoop_steady_none (V : Int) (hV : 0 ≤ V) (fuel : Nat) (sl : State × SettleLocals)
    (ha : sl.2.ambient = 0) (hd : 0 ≤ sl.2.delta) (hL : sl.1.noiseLEVEL < V / 2 / 2) :
    noiseLoop (steadyEnv V) fuel sl = none := by
  cases h : noiseLoop (steadyEnv V) fuel sl with
  | none => rfl
  | some r =>
    obtain ⟨k, -, -, hle, -⟩ := (noiseLoop_iff (steadyEnv V) fuel sl r).1 h
    have := (noiseIter_steady V hV k sl ha hd).2
    omega

/-- C3, evaluated: with two sensors, noise ceiling 2 and a steady input of 4,
`performSettle` returns; its locals end with `ambient = 2` and
`newambient = 3`, and the global `ambient` that `processInput` and
`performSignal` read is still 0, as on entry.  On an entry value of 100 the
global is likewise still 100. -/
theorem performSettle_keeps_global_ambient :
    (settleRun (steadyEnv 4) 1 twoSensorState).map (fun r => (r.2.ambient, r.2.newambient))
      = some (2, 3) ∧
    (performSettle (steadyEnv 4) 1 twoSensorState).map State.ambient = some 0 ∧
    (performSettle (steadyEnv 4) 1 { twoSensorState with ambient := 100 }).map State.ambient
      = some 100 := by
  refine ⟨by decide, by decide, by decide⟩

/-- C4, evaluated: with one sensor, noise ceiling 2 and the input held at 512,
`performSettle` does not return, whatever the fuel: after every execution of
the noise loop's body the local baseline `ambient` is 0 and the noise estimate
`delta` is at least 128. -/
theorem performSettle_steady_512 :
    (∀ fuel, performSettle (steadyEnv 512) fuel quietState = none) ∧
    (∀ n, (noiseIter (steadyEnv 512) (n + 1) (primeLoop (steadyEnv 512) 11
        ({ quietState with analogIDX := 0, PIN := 14 }, SettleLocals.fresh))).2.ambient = 0 ∧
      128 ≤ (noiseIter (steadyEnv 512) (n + 1) (primeLoop (steadyEnv 512) 11
        ({ quietState with analogIDX := 0, PIN := 14 }, SettleLocals.fresh))).2.delta) := by
  have ha : (primeLoop (steadyEnv 512) 11
      ({ quietState with analogIDX := 0, PIN := 14 }, SettleLocals.fresh)).2.ambient = 0 :=
    primeLoop_ambient (steadyEnv 512) 10 _
  have hd : (primeLoop (steadyEnv 512) 11
      ({ quietState with analogIDX := 0, PIN := 14 }, SettleLocals.fresh)).2.delta = 0 :=
    (primeLoop_locals (steadyEnv 512) 11 _).2.1
  have hL : (primeLoop (steadyEnv 512) 11
      ({ quietState with analogIDX := 0, PIN := 14 }, SettleLocals.fresh)).1.noiseLEVEL = 2 :=
    (globals_fields (primeLoop_globals (steadyEnv 512) 11 _)).2.2.2.2.2.2.2.2.2.1
  constructor
  · intro fuel
    have hpass : settlePass (steadyEnv 512) fuel
        ({ quietState with analogIDX := 0 }, SettleLocals.fresh) = none :=
      noiseLoop_steady_none 512 (by decide) fuel _ ha (le_of_eq hd.symm)
        (lt_of_eq_of_lt hL (by decide))
    have hrun : settleRun (steadyEnv 512) fuel quietState = none := by
      show sensorLoop (steadyEnv 512) fuel (0 + 1)
        ({ quietState with analogIDX := 0 }, SettleLocals.fresh) = none
      simp only [sensorLoop]
      rw [if_pos (by decide), hpass]
    simp only [performSettle, hrun]
  · intro n
    have := noiseIter_steady 512 (by decide) n _ ha (le_of_eq hd.symm)
    exact ⟨this.1, by have h2 := this.2; omega⟩

/-- C5, evaluated: the priming loop leaves in `ambient` the value `newambient`
had on entry, for every environment and every entry state; on eleven samples
of 512 from fresh locals that is 0, where the smoothing fold of the
specification gives 511. -/
theorem primeLoop_discards_fold :
    (∀ (e : Env) (sl : State × SettleLocals), (primeLoop e 11 sl).2.ambient = sl.2.newambient) ∧
    (primeLoop (steadyEnv 512) 11 (quietState, SettleLocals.fresh)).2.ambient = 0 ∧
    specPrimingFold SettleLocals.fresh.ambient (List.replicate 11 512) = 511 := by
  refine ⟨fun e sl => primeLoop_ambient e 10 sl, by decide, by decide⟩

/-- C10, evaluated: `setup` writes to the output pin the value `signalOFF` has
on entry, for every environment and every entry state.  With normally-closed
wiring and `signalOFF` still 0 that is `LOW`, where `configurePins` writes
`HIGH` and `performSignal` resolves the OFF level to `HIGH`; the pin is still
at `LOW` when `setup` returns.  Whatever value `signalOFF` has on entry, one of
the two polarities has a different OFF level. -/
theorem setup_writes_unresolved_level :
    (∀ (e : Env) (s : State), (setupOutput e s).trace
      = s.trace ++ [Event.pinMode (boards e s).outputPIN OUTPUT,
          Event.digitalWrite (boards e s).outputPIN s.signalOFF]) ∧
    (∀ s : State, ∃ nc : Bool, s.signalOFF ≠ offLevel nc) ∧
    writesTo 13 (setupOutput (steadyEnv 0) closedBootState).trace = [LOW] ∧
    writesTo 13 (configurePins closedBootState).trace = [HIGH] ∧
    (resolvePolarity closedBootState).signalOFF = HIGH ∧
    (setup (steadyEnv 0) 1 closedBootState).map (fun s => levelOf s.outputPIN s.trace)
      = some (some LOW) := by
  refine ⟨fun e s => ?_, fun s => ?_, by decide, by decide, by decide, by decide⟩
  · simp only [setupOutput, digitalWrite, pinMode, boards, boardUno]
    split_ifs <;> simp
  · by_cases h : s.signalOFF = HIGH
    · exact ⟨false, by rw [h]; decide⟩
    · exact ⟨true, h⟩

end FSRTrigger

namespace FSRTrigger

/-! ## What the sensor loop leaves alone -/

theorem primeLoop_settleFrame (e : Env) :
    ∀ (n : Nat) (sl : State × SettleLocals),
      (primeLoop e n sl).1.settleFrame = sl.1.settleFrame := by
  intro n
  induction n with
  | zero => intro sl; rfl
  | succ n ih => intro sl; exact (ih (primeStep e sl)).trans rfl

theorem noiseIter_settleFrame (e : Env) :
    ∀ (n : Nat) (sl : State × SettleLocals),
      (noiseIter e n sl).1.settleFrame = sl.1.settleFrame := by
  intro n
  induction n with
  | zero => intro sl; rfl
  | succ n ih => intro sl; exact (ih (noiseStep e sl)).trans rfl

theorem settlePass_eq (e : Env) (fuel : Nat) (sl : State × SettleLocals) :
    settlePass e fuel sl = noiseLoop e fuel (noiseEntry e sl) := rfl

theorem settlePass_settleFrame {e : Env} {fuel : Nat} {sl r : State × SettleLocals}
    (h : settlePass e fuel sl = some r) : r.1.settleFrame = sl.1.settleFrame := by
  rw [settlePass_eq] at h
  obtain ⟨k, -, hr, -, -⟩ := (noiseLoop_iff e fuel _ r).1 h
  subst hr
  exact (noiseIter_settleFrame e (k + 1) _).trans (primeLoop_settleFrame e 11 _)

theorem sensorLoop_settleFrame (e : Env) (fuel : Nat) :
    ∀ (n : Nat) (sl r : State × SettleLocals), sensorLoop e fuel n sl = some r →
      r.1.settleFrame = sl.1.settleFrame := by
  intro n
  induction n with
  | zero =>
    intro sl r h
    simp only [sensorLoop] at h
    split_ifs at h
    cases h; rfl
  | succ n ih =>
    intro sl r h
    simp only [sensorLoop] at h
    split_ifs at h
    · cases hp : settlePass e fuel sl with
      | none => rw [hp] at h; cases h
      | some q =>
        rw [hp] at h
        have hq : q.1.settleFrame = sl.1.settleFrame := settlePass_settleFrame hp
        exact (ih _ r h).trans hq
    · cases h; rfl

/-- Extraction of single globals from an agreement on `State.settleFrame`. -/
theorem settleFrame_fields {s s' : State} (h : s'.settleFrame = s.settleFrame) :
    s'.ticks = s.ticks ∧ s'.sinceLastSettle = s.sinceLastSettle ∧
    s'.settleTIMEOUT = s.settleTIMEOUT ∧ s'.analogIDX = s.analogIDX ∧
    s'.noiseLEVEL = s.noiseLEVEL ∧ s'.sensors = s.sensors ∧ s'.ambient = s.ambient ∧
    s'.oneShotSettle = s.oneShotSettle := by
  have h1 := congrArg State.ticks h
  have h2 := congrArg State.sinceLastSettle h
  have h3 := congrArg State.settleTIMEOUT h
  have h4 := congrArg State.analogIDX h
  have h5 := congrArg State.noiseLEVEL h
  have h6 := congrArg State.sensors h
  have h7 := congrArg State.ambient h
  have h8 := congrArg State.oneShotSettle h
  exact ⟨h1, h2, h3, h4, h5, h6, h7, h8⟩

/-- A run of `performSettle` that returns: the sensor loop has ended in some
state, and the result is that state after the clock read of line 58. -/
theorem performSettle_some {e : Env} {fuel : Nat} {s s' : State}
    (h : performSettle e fuel s = some s') :
    ∃ r, settleRun e fuel s = some r ∧ r.1.ticks = s.ticks ∧
      r.1.settleTIMEOUT = s.settleTIMEOUT ∧
      s' = { (millis e r.1).2 with sinceLastSettle := (millis e r.1).1 } := by
  simp only [performSettle] at h
  split at h
  · cases h
  · rename_i r hr
    cases h
    have hf := sensorLoop_settleFrame e fuel _ _ _ hr
    obtain ⟨h1, -, h3, -⟩ := settleFrame_fields hf
    exact ⟨r, hr, h1, h3, rfl⟩

theorem performSettle_ticks {e : Env} {fuel : Nat} {s s' : State}
    (h : performSettle e fuel s = some s') : s'.ticks = s.ticks + 1 := by
  obtain ⟨r, -, ht, -, rfl⟩ := performSettle_some h
  show r.1.ticks + 1 = _
  rw [ht]

/-! ## Settle time and the re-settle check -/

/-- C18: when `performSettle` returns, the sensor loop has ended without any
clock read, the last event is the clock read of line 58, and
`sinceLastSettle` is the value of that read; the timeout test
`(millis() - sinceLastSettle) > settleTIMEOUT` evaluated at that same clock
value is false. -/
theorem performSettle_records_time (e : Env) (fuel : Nat) (s s' : State)
    (h : performSettle e fuel s = some s') :
    ∃ r, settleRun e fuel s = some r ∧ r.1.ticks = s.ticks ∧
      s'.trace = r.1.trace ++ [Event.millis (e.clock s.ticks)] ∧
      s'.sinceLastSettle = (e.clock s.ticks : Int) ∧ s'.ticks = s.ticks + 1 ∧
      s'.settleTIMEOUT = s.settleTIMEOUT ∧
      elapsedExceeds (e.clock s.ticks) s'.sinceLastSettle s'.settleTIMEOUT = false := by
  obtain ⟨r, hr, ht, hT, rfl⟩ := performSettle_some h
  refine ⟨r, hr, ht, ?_, ?_, ?_, hT, ?_⟩
  · show r.1.trace ++ [Event.millis (e.clock r.1.ticks)] = _
    rw [ht]
  · show ((e.clock r.1.ticks : Nat) : Int) = _
    rw [ht]
  · show r.1.ticks + 1 = _
    rw [ht]
  · show elapsedExceeds (e.clock s.ticks) ((e.clock r.1.ticks : Nat) : Int) r.1.settleTIMEOUT
      = false
    rw [ht]
    have hnn : 0 ≤ r.1.settleTIMEOUT % ULONG := Int.emod_nonneg _ (by decide)
    simp only [elapsedExceeds, sub_self, Int.zero_emod, decide_eq_false_iff_not, not_lt]
    exact hnn

theorem performSettle_records_time_witness :
    ∃ s', performSettle (steadyEnv 4) 1 twoSensorState = some s' ∧
      s'.sinceLastSettle = ((steadyEnv 4).clock twoSensorState.ticks : Int) ∧
      elapsedExceeds ((steadyEnv 4).clock twoSensorState.ticks) s'.sinceLastSettle
        s'.settleTIMEOUT = false := by
  have hs : (performSettle (steadyEnv 4) 1 twoSensorState).isSome = true := by decide
  obtain ⟨s', hs'⟩ := Option.isSome_iff_exists.1 hs
  obtain ⟨r, -, -, -, h1, -, -, h2⟩ :=
    performSettle_records_time (steadyEnv 4) 1 twoSensorState s' hs'
  exact ⟨s', hs', h1, h2⟩

/-- C11: in one-shot mode `processSettle` returns, whatever the fuel, the
state right after its averaged reading: only the three sample events are
appended, no clock is read (a settle that returns reads the clock), and
`sinceLastSettle`, like every global but `reading`, is as on entry. -/
theorem processSettle_one_shot (e : Env) (fuel : Nat) (s : State)
    (h : s.oneShotSettle = true) :
    ∃ s', processSettle e fuel s = some s' ∧
      s'.trace = s.trace ++ pollEvents e s.analogPIN s.reads ∧
      s'.ticks = s.ticks ∧ s'.sinceLastSettle = s.sinceLastSettle ∧
      s'.globals = s.globals := by
  refine ⟨takeReading e s, ?_, takeReading_trace e s, rfl, rfl, rfl⟩
  have ho : (takeReading e s).oneShotSettle = true := h
  simp only [processSettle]
  rw [if_neg (by rw [ho]; decide)]

theorem processSettle_one_shot_witness :
    oneShotState.oneShotSettle = true ∧
    ∃ s', processSettle staleEnv 0 oneShotState = some s' ∧
      s'.trace = oneShotState.trace ++ pollEvents staleEnv oneShotState.analogPIN
        oneShotState.reads ∧
      s'.ticks = oneShotState.ticks ∧ s'.sinceLastSettle = oneShotState.sinceLastSettle ∧
      s'.globals = oneShotState.globals :=
  ⟨rfl, processSettle_one_shot staleEnv 0 oneShotState rfl⟩

/-- C12, as the code behaves: with `oneShotSettle` false, `processSettle`
calls `performSettle` when (a) `reading + noiseLEVEL < ambient`, where
`noiseLEVEL` is the configured noise ceiling, and then tests the timeout
against the settle time just recorded; failing (a), it calls `performSettle`
when (b) `(millis() - sinceLastSettle) > settleTIMEOUT`; failing both it
returns after the averaged reading and one clock read.  So a run that returns
has made exactly one clock read if and only if neither (a) nor (b) held. -/
theorem processSettle_triggers (e : Env) (fuel : Nat) (s : State)
    (h : s.oneShotSettle = false) :
    (avgAt e s.analogPIN s.reads + s.noiseLEVEL < s.ambient →
      processSettle e fuel s = (performSettle e fuel (takeReading e s)).bind (fun s2 =>
        if elapsedExceeds (e.clock s2.ticks) s2.sinceLastSettle s2.settleTIMEOUT
        then performSettle e fuel (millis e s2).2 else some (millis e s2).2)) ∧
    (¬ avgAt e s.analogPIN s.reads + s.noiseLEVEL < s.ambient →
      elapsedExceeds (e.clock s.ticks) s.sinceLastSettle s.settleTIMEOUT = true →
      processSettle e fuel s = performSettle e fuel (millis e (takeReading e s)).2) ∧
    (¬ avgAt e s.analogPIN s.reads + s.noiseLEVEL < s.ambient →
      elapsedExceeds (e.clock s.ticks) s.sinceLastSettle s.settleTIMEOUT = false →
      processSettle e fuel s = some (millis e (takeReading e s)).2) ∧
    (∀ s', processSettle e fuel s = some s' →
      (s'.ticks = s.ticks + 1 ↔
        ¬ avgAt e s.analogPIN s.reads + s.noiseLEVEL < s.ambient ∧
        elapsedExceeds (e.clock s.ticks) s.sinceLastSettle s.settleTIMEOUT = false)) := by
  have ho : (takeReading e s).oneShotSettle = false := h
  have hcond : ((takeReading e s).reading + (takeReading e s).noiseLEVEL
      < (takeReading e s).ambient) ↔ (avgAt e s.analogPIN s.reads + s.noiseLEVEL < s.ambient) :=
    Iff.rfl
  have hA : avgAt e s.analogPIN s.reads + s.noiseLEVEL < s.ambient →
      processSettle e fuel s = (performSettle e fuel (takeReading e s)).bind (fun s2 =>
        if elapsedExceeds (e.clock s2.ticks) s2.sinceLastSettle s2.settleTIMEOUT
        then performSettle e fuel (millis e s2).2 else some (millis e s2).2) := by
    intro ha
    simp only [processSettle]
    rw [if_pos ho, if_pos (hcond.2 ha)]
    cases performSettle e fuel (takeReading e s) with
    | none => rfl
    | some s2 => rfl
  have hB : ¬ avgAt e s.analogPIN s.reads + s.noiseLEVEL < s.ambient →
      elapsedExceeds (e.clock s.ticks) s.sinceLastSettle s.settleTIMEOUT = true →
      processSettle e fuel s = performSettle e fuel (millis e (takeReading e s)).2 := by
    intro ha hb
    simp only [processSettle]
    rw [if_pos ho, if_neg (fun hc => ha (hcond.1 hc))]
    show (if elapsedExceeds (e.clock s.ticks) s.sinceLastSettle s.settleTIMEOUT = true
      then performSettle e fuel (millis e (takeReading e s)).2
      else some (millis e (takeReading e s)).2) = _
    rw [if_pos hb]
  have hC : ¬ avgAt e s.analogPIN s.reads + s.noiseLEVEL < s.ambient →
      elapsedExceeds (e.clock s.ticks) s.sinceLastSettle s.settleTIMEOUT = false →
      processSettle e fuel s = some (millis e (takeReading e s)).2 := by
    intro ha hb
    simp only [processSettle]
    rw [if_pos ho, if_neg (fun hc => ha (hcond.1 hc))]
    show (if elapsedExceeds (e.clock s.ticks) s.sinceLastSettle s.settleTIMEOUT = true
      then performSettle e fuel (millis e (takeReading e s)).2
      else some (millis e (takeReading e s)).2) = _
    rw [if_neg (by rw [hb]; decide)]
  refine ⟨hA, hB, hC, ?_⟩
  intro s' hs'
  by_cases ha : avgAt e s.analogPIN s.reads + s.noiseLEVEL < s.ambient
  · rw [hA ha] at hs'
    have hne : s'.ticks ≠ s.ticks + 1 := by
      cases hp : performSettle e fuel (takeReading e s) with
      | none => rw [hp] at hs'; cases hs'
      | some s2 =>
        rw [hp] at hs'
        have h2 := performSettle_ticks hp
        rw [takeReading_ticks] at h2
        simp only [Option.bind] at hs'
        split_ifs at hs'
        · have h3 := performSettle_ticks hs'
          rw [millis_ticks] at h3
          omega
        · cases hs'
          show s2.ticks + 1 ≠ _
          omega
    exact ⟨fun h1 => absurd h1 hne, fun h1 => absurd ha h1.1⟩
  · cases hb : elapsedExceeds (e.clock s.ticks) s.sinceLastSettle s.settleTIMEOUT with
    | true =>
      rw [hB ha hb] at hs'
      have h3 := performSettle_ticks hs'
      rw [millis_ticks, takeReading_ticks] at h3
      exact ⟨fun h1 => by omega, fun h1 => by cases h1.2⟩
    | false =>
      rw [hC ha hb] at hs'
      cases hs'
      exact ⟨fun _ => ⟨ha, rfl⟩, fun _ => rfl⟩

theorem processSettle_triggers_witness :
    staleState.oneShotSettle = false ∧
    processSettle staleEnv 1 staleState
      = (performSettle staleEnv 1 (takeReading staleEnv staleState)).bind (fun s2 =>
        if elapsedExceeds (staleEnv.clock s2.ticks) s2.sinceLastSettle s2.settleTIMEOUT
        then performSettle staleEnv 1 (millis staleEnv s2).2 else some (millis staleEnv s2).2) :=
  ⟨rfl, (processSettle_triggers staleEnv 1 staleState rfl).1 (by decide)⟩

/-- C12, as stated, fails: after a settle on samples of 4 with noise ceiling 2
the learned noise estimate `delta` is 1; with baseline 10 and a following
averaged reading of 8 one has `reading + delta < baseline`, the timeout has not
elapsed, and `processSettle` does not settle again (it returns after three
more samples and one clock read, `sinceLastSettle` still 0): the code compares
with the ceiling `noiseLEVEL = 2`, and `8 + 2 < 10` is false. -/
theorem processSettle_ignores_learned_noise :
    (settleRun driftEnv 1 driftState).map (fun r => r.2.delta) = some 1 ∧
    ((8 : Int) + 1 < driftState.ambient) ∧
    ((performSettle driftEnv 1 driftState).bind (processSettle driftEnv 1)).map
      (fun s => (s.reading, s.ambient, s.noiseLEVEL, s.reads, s.ticks, s.sinceLastSettle))
      = some (8, 10, 2, 15, 2, 0) := by
  refine ⟨by decide, by decide, by decide⟩

/-! ## What the detector leaves alone -/

theorem detectorFrame_of_globals {s s' : State} (h : s'.globals = s.globals) :
    s'.detectorFrame = s.detectorFrame :=
  congrArg (fun x : State => { x with signalON := 0, signalOFF := 0 }) h

theorem takeReading_detectorFrame (e : Env) (s : State) :
    (takeReading e s).detectorFrame = s.detectorFrame := rfl

/-- A run of `performSignal` that returns changes no global but `reading`,
`signalON` and `signalOFF`. -/
theorem performSignal_detectorFrame {e : Env} {fuel : Nat} {s s' : State}
    (h : performSignal e fuel s = some s') : s'.detectorFrame = s.detectorFrame := by
  obtain ⟨s3, hloop, rfl⟩ := performSignal_some h
  obtain ⟨hg, -⟩ := signalLoop_frame e _ _ _ _ hloop
  have h1 := detectorFrame_of_globals hg
  have h2 : (digitalWrite s.outputPIN (onLevel s.normallyCLOSED)
      (resolvePolarity (millis e s).2)).detectorFrame = s.detectorFrame := by
    cases hnc : s.normallyCLOSED <;>
      simp [resolvePolarity, millis, digitalWrite, State.detectorFrame, hnc]
  exact h1.trans h2

/-- Extraction of single globals from an agreement on `State.detectorFrame`. -/
theorem detectorFrame_fields {s s' : State} (h : s'.detectorFrame = s.detectorFrame) :
    s'.ambient = s.ambient ∧ s'.threshold = s.threshold ∧
    s'.sinceLastSettle = s.sinceLastSettle ∧ s'.analogIDX = s.analogIDX ∧
    s'.PIN = s.PIN ∧ s'.noiseLEVEL = s.noiseLEVEL ∧ s'.outputPIN = s.outputPIN := by
  have h1 := congrArg State.ambient h
  have h2 := congrArg State.threshold h
  have h3 := congrArg State.sinceLastSettle h
  have h4 := congrArg State.analogIDX h
  have h5 := congrArg State.PIN h
  have h6 := congrArg State.noiseLEVEL h
  have h7 := congrArg State.outputPIN h
  exact ⟨h1, h2, h3, h4, h5, h6, h7⟩

/-- A run of `performSignal` that returns writes to no pin but the output
pin. -/
theorem performSignal_other_pins {e : Env} {fuel : Nat} {s s' : State}
    (h : performSignal e fuel s = some s') (pin : Int) (hp : s.outputPIN ≠ pin) :
    writesTo pin s'.trace = writesTo pin s.trace := by
  obtain ⟨-, -, -, -, polls, hno, htr⟩ := performSignal_shape h
  rw [htr]
  simp [writesTo, writesTo_of_no_write pin polls hno, hp]

/-- A run of `processInput` that returns is either the averaged reading alone
or the averaged reading followed by a run of `performSignal`. -/
theorem processInput_some {e : Env} {fuel : Nat} {s s' : State}
    (h : processInput e fuel s = some s') :
    s' = takeReading e s ∨ performSignal e fuel (takeReading e s) = some s' := by
  simp only [processInput] at h
  split_ifs at h
  · exact Or.inr h
  · cases h; exact Or.inl rfl

/-- A run of `processInput` that returns changes no global but `reading`,
`signalON` and `signalOFF`. -/
theorem processInput_detectorFrame {e : Env} {fuel : Nat} {s s' : State}
    (h : processInput e fuel s = some s') : s'.detectorFrame = s.detectorFrame := by
  rcases processInput_some h with rfl | hsig
  · rfl
  · exact (performSignal_detectorFrame hsig).trans (takeReading_detectorFrame e s)

/-- C17: a run of `performSignal`, and a run of `processInput`, that returns
leaves every global but `reading`, `signalON` and `signalOFF` as on entry, in
particular `ambient`, `threshold` and `sinceLastSettle`, and writes to no pin
but the output pin. -/
theorem detector_reads_only (e : Env) (fuel : Nat) (s s' : State) :
    (performSignal e fuel s = some s' →
      s'.detectorFrame = s.detectorFrame ∧ s'.ambient = s.ambient ∧
      s'.threshold = s.threshold ∧ s'.sinceLastSettle = s.sinceLastSettle ∧
      ∀ pin, s.outputPIN ≠ pin → writesTo pin s'.trace = writesTo pin s.trace) ∧
    (processInput e fuel s = some s' →
      s'.detectorFrame = s.detectorFrame ∧ s'.ambient = s.ambient ∧
      s'.threshold = s.threshold ∧ s'.sinceLastSettle = s.sinceLastSettle ∧
      ∀ pin, s.outputPIN ≠ pin → writesTo pin s'.trace = writesTo pin s.trace) := by
  constructor
  · intro h
    have hf := performSignal_detectorFrame h
    obtain ⟨h1, h2, h3, -⟩ := detectorFrame_fields hf
    exact ⟨hf, h1, h2, h3, fun pin hp => performSignal_other_pins h pin hp⟩
  · intro h
    have hw : ∀ pin, writesTo pin (takeReading e s).trace = writesTo pin s.trace := by
      intro pin
      rw [takeReading_trace, writesTo_append,
        writesTo_of_no_write pin _ (pollEvents_no_write e s.analogPIN s.reads),
        List.append_nil]
    rcases processInput_some h with rfl | hsig
    · exact ⟨rfl, rfl, rfl, rfl, fun pin _ => hw pin⟩
    · have hf := (performSignal_detectorFrame hsig).trans (takeReading_detectorFrame e s)
      obtain ⟨h1, h2, h3, -⟩ := detectorFrame_fields hf
      refine ⟨hf, h1, h2, h3, fun pin hp => ?_⟩
      rw [performSignal_other_pins hsig pin hp, hw pin]

theorem detector_reads_only_witness :
    ∃ s', processInput stuckEnv 2 scenarioState = some s' ∧
      s'.detectorFrame = scenarioState.detectorFrame ∧ s'.ambient = scenarioState.ambient ∧
      s'.threshold = scenarioState.threshold ∧
      s'.sinceLastSettle = scenarioState.sinceLastSettle ∧
      ∀ pin, scenarioState.outputPIN ≠ pin →
        writesTo pin s'.trace = writesTo pin scenarioState.trace := by
  have hs : (processInput stuckEnv 2 scenarioState).isSome = true := by decide
  obtain ⟨s', hs'⟩ := Option.isSome_iff_exists.1 hs
  exact ⟨s', hs', (detector_reads_only stuckEnv 2 scenarioState s').2 hs'⟩

/-- C14, as the code behaves: one iteration of `loop` is `processInput` and
nothing else.  When it returns, every global but `reading`, `signalON` and
`signalOFF` is as on entry, in particular `sinceLastSettle`, `analogIDX` and
`PIN`, which a settle assigns; on a reading at or below `ambient + threshold`
it returns after the three samples without reading the clock, whatever
`oneShotSettle`, `sinceLastSettle` and `settleTIMEOUT` are. -/
theorem loop_only_detects (e : Env) (fuel : Nat) (s s' : State)
    (h : loop e fuel s = some s') :
    processInput e fuel s = some s' ∧ s'.detectorFrame = s.detectorFrame ∧
    s'.sinceLastSettle = s.sinceLastSettle ∧ s'.analogIDX = s.analogIDX ∧ s'.PIN = s.PIN ∧
    (avgAt e s.analogPIN s.reads ≤ s.ambient + s.threshold →
      s' = takeReading e s ∧ s'.ticks = s.ticks) := by
  have hp : processInput e fuel s = some s' := h
  have hf := processInput_detectorFrame hp
  obtain ⟨-, -, h3, h4, h5, -⟩ := detectorFrame_fields hf
  refine ⟨hp, hf, h3, h4, h5, fun hq => ?_⟩
  have hrun : processInput e fuel s = some (takeReading e s) := by
    simp only [processInput]
    rw [if_neg]
    exact not_lt.2 hq
  have h2 : s' = takeReading e s := Option.some.inj (hp.symm.trans hrun)
  subst h2
  exact ⟨rfl, rfl⟩

theorem loop_only_detects_witness :
    ∃ s', loop staleEnv 1 staleState = some s' ∧
      s'.sinceLastSettle = staleState.sinceLastSettle ∧ s'.analogIDX = staleState.analogIDX ∧
      s'.PIN = staleState.PIN := by
  have hs : (loop staleEnv 1 staleState).isSome = true := by decide
  obtain ⟨s', hs'⟩ := Option.isSome_iff_exists.1 hs
  obtain ⟨-, -, h3, h4, h5, -⟩ := loop_only_detects staleEnv 1 staleState s' hs'
  exact ⟨s', hs', h3, h4, h5⟩

/-- C14, as stated, fails: with `oneShotSettle` false, the last settle at 0 ms,
a settle timeout of 5 ms, the clock at 1000 ms and a reading of 100 under a
baseline of 512 with noise margin 30, both re-settle conditions hold, yet one
iteration of `loop` returns after three samples with no clock read and
`sinceLastSettle` still 0; `processSettle` on the same state does settle
(twelve more samples, `sinceLastSettle` 1000). -/
theorem loop_skips_settle_check :
    staleState.oneShotSettle = false ∧
    elapsedExceeds (staleEnv.clock staleState.ticks) staleState.sinceLastSettle
      staleState.settleTIMEOUT = true ∧
    avgAt staleEnv staleState.analogPIN staleState.reads + staleState.noiseLEVEL
      < staleState.ambient ∧
    (loop staleEnv 1 staleState).map (fun s => (s.reads, s.ticks, s.sinceLastSettle))
      = some (3, 0, 0) ∧
    (processSettle staleEnv 1 staleState).map (fun s => (s.reads, s.ticks, s.sinceLastSettle))
      = some (15, 2, 1000) := by
  refine ⟨rfl, by decide, by decide, by decide, by decide⟩

/-! ## The averaged reading -/

/-- If the timeout test succeeds at the clock read of poll number `m` (from 0)
at the latest, the loop ends within `m + 1` polls. -/
theorem signalLoop_ends (e : Env) (st : Int) :
    ∀ (m fuel : Nat) (s : State), m < fuel →
      elapsedExceeds (e.clock (s.ticks + m)) st s.TIMEOUT = true →
      ∃ s' k, 1 ≤ k ∧ k ≤ m + 1 ∧ signalLoop e st fuel s = some s' ∧
        s'.reads = s.reads + 3 * k := by
  intro m
  induction m with
  | zero =>
    intro fuel s hf hout
    obtain ⟨f, rfl⟩ : ∃ f, fuel = f + 1 := ⟨fuel - 1, by omega⟩
    by_cases hlow : avgAt e s.analogPIN s.reads ≤ s.ambient + s.threshold
    · refine ⟨takeReading e s, 1, le_refl 1, le_refl 1, ?_, rfl⟩
      simp only [signalLoop]
      rw [if_pos]
      exact hlow
    · refine ⟨(millis e (takeReading e s)).2, 1, le_refl 1, le_refl 1, ?_, rfl⟩
      simp only [signalLoop]
      rw [if_neg, if_pos]
      · simpa using hout
      · exact hlow
  | succ m ih =>
    intro fuel s hf hout
    obtain ⟨f, rfl⟩ : ∃ f, fuel = f + 1 := ⟨fuel - 1, by omega⟩
    by_cases hlow : avgAt e s.analogPIN s.reads ≤ s.ambient + s.threshold
    · refine ⟨takeReading e s, 1, le_refl 1, by omega, ?_, rfl⟩
      simp only [signalLoop]
      rw [if_pos]
      exact hlow
    · cases hnow : elapsedExceeds (e.clock s.ticks) st s.TIMEOUT with
      | true =>
        refine ⟨(millis e (takeReading e s)).2, 1, le_refl 1, by omega, ?_, rfl⟩
        simp only [signalLoop]
        rw [if_neg, if_pos]
        · simpa using hnow
        · exact hlow
      | false =>
        have hstep : signalLoop e st (f + 1) s
            = signalLoop e st f (millis e (takeReading e s)).2 := by
          simp only [signalLoop]
          rw [if_neg, if_neg]
          · simpa using hnow
          · exact hlow
        have htk : s.ticks + 1 + m = s.ticks + (m + 1) := by omega
        obtain ⟨s', k, hk1, hk2, hs', hr⟩ := ih f (millis e (takeReading e s)).2 (by omega)
          (by
            show elapsedExceeds (e.clock (s.ticks + 1 + m)) st s.TIMEOUT = true
            rw [htk]; exact hout)
        refine ⟨s', k + 1, by omega, by omega, hstep.trans hs', ?_⟩
        rw [hr]
        show s.reads + 3 + 3 * k = _
        omega

/-- A clock that advances at every read has advanced by at least `m` after
`m` reads. -/
theorem clock_advance (e : Env) (t0 : Nat) :
    ∀ m : Nat, (∀ k, t0 ≤ k → k < t0 + m → e.clock k < e.clock (k + 1)) →
      e.clock t0 + m ≤ e.clock (t0 + m) := by
  intro m
  induction m with
  | zero => intro _; exact le_refl _
  | succ m ih =>
    intro h
    have h1 := ih (fun k hk1 hk2 => h k hk1 (by omega))
    have h2 := h (t0 + m) (by omega) (by omega)
    have h3 : t0 + (m + 1) = t0 + m + 1 := by omega
    rw [h3]
    omega

/-- C16: if `TIMEOUT >= 0`, every clock read from the one of `startTime` up to
the one of poll number `TIMEOUT + 1` returns more than the read before it, and
these values are `unsigned long` values (below `2^32`), then for every stream
of samples `performSignal` returns, given fuel for `TIMEOUT + 1` polls, after
at least one and at most `TIMEOUT + 1` polls, with the output pin at its OFF
level. -/
theorem performSignal_terminates (e : Env) (s : State) (fuel : Nat)
    (hT : 0 ≤ s.TIMEOUT) (hf : s.TIMEOUT.toNat < fuel)
    (hmono : ∀ k, s.ticks ≤ k → k < s.ticks + (s.TIMEOUT.toNat + 1) →
      e.clock k < e.clock (k + 1))
    (hlt : (e.clock (s.ticks + (s.TIMEOUT.toNat + 1)) : Int) < ULONG) :
    ∃ (s' : State) (k : Nat), 1 ≤ k ∧ (k : Int) ≤ s.TIMEOUT + 1 ∧
      performSignal e fuel s = some s' ∧
      s'.reads = s.reads + 3 * k ∧
      levelOf s.outputPIN s'.trace = some (offLevel s.normallyCLOSED) := by
  obtain ⟨-, -, hT2, -, hr, hk⟩ := loopEntry_fields e s
  have hadv := clock_advance e s.ticks (s.TIMEOUT.toNat + 1) hmono
  have hU : ULONG = 4294967296 := by norm_num [ULONG]
  have hout : elapsedExceeds (e.clock (s.ticks + 1 + s.TIMEOUT.toNat)) (e.clock s.ticks)
      s.TIMEOUT = true := by
    have h1 : s.ticks + 1 + s.TIMEOUT.toNat = s.ticks + (s.TIMEOUT.toNat + 1) := by omega
    rw [h1]
    simp only [elapsedExceeds, decide_eq_true_eq]
    rw [hU] at hlt ⊢
    have h2 : ((e.clock s.ticks + (s.TIMEOUT.toNat + 1) : Nat) : Int)
        ≤ (e.clock (s.ticks + (s.TIMEOUT.toNat + 1)) : Int) := by exact_mod_cast hadv
    push_cast at h2
    have h3 : (s.TIMEOUT.toNat : Int) = s.TIMEOUT := Int.toNat_of_nonneg hT
    omega
  obtain ⟨s3, k, hk1, hk2, hloop, h3r⟩ := signalLoop_ends e (e.clock s.ticks) s.TIMEOUT.toNat fuel
    (digitalWrite s.outputPIN (onLevel s.normallyCLOSED) (resolvePolarity (millis e s).2)) hf
    (by rw [hT2, hk]; exact hout)
  have hret := performSignal_of_loop hloop
  refine ⟨_, k, hk1, ?_, hret, ?_, performSignal_level hret⟩
  · have h3 : (s.TIMEOUT.toNat : Int) = s.TIMEOUT := Int.toNat_of_nonneg hT
    have h4 : (k : Int) ≤ (s.TIMEOUT.toNat : Int) + 1 := by exact_mod_cast hk2
    omega
  · show s3.reads = _
    rw [h3r, hr]

theorem performSignal_terminates_witness :
    ∃ (s' : State) (k : Nat), 1 ≤ k ∧ (k : Int) ≤ scenarioState.TIMEOUT + 1 ∧
      performSignal (steadyEnv 600) 11 scenarioState = some s' ∧
      s'.reads = scenarioState.reads + 3 * k ∧
      levelOf scenarioState.outputPIN s'.trace
        = some (offLevel scenarioState.normallyCLOSED) :=
  performSignal_terminates (steadyEnv 600) scenarioState 11 (by decide) (by decide)
    (fun k _ _ => Nat.lt_succ_self k) (by decide)

/-! ## The noise estimate -/

theorem noiseIter_succ (e : Env) :
    ∀ (n : Nat) (sl : State × SettleLocals),
      noiseIter e (n + 1) sl = noiseStep e (noiseIter e n sl) := by
  intro n
  induction n with
  | zero => intro sl; rfl
  | succ n ih =>
    intro sl
    show noiseIter e (n + 1) (noiseStep e sl) = _
    rw [ih (noiseStep e sl)]
    rfl

theorem noiseStep_nonneg (e : Env) (sl : State × SettleLocals) :
    0 ≤ (noiseStep e sl).2.newdelta ∧
    (0 ≤ sl.2.delta → 0 ≤ (noiseStep e sl).2.delta) := by
  obtain ⟨-, -, -, hnd, hd⟩ := noiseStep_locals e sl
  refine ⟨by rw [hnd]; exact abs_nonneg _, fun h0 => ?_⟩
  rw [hd]
  exact Int.tdiv_nonneg (add_nonneg (abs_nonneg _) h0) (by decide)

theorem noiseIter_nonneg (e : Env) :
    ∀ (n : Nat) (sl : State × SettleLocals), 0 ≤ sl.2.delta →
      0 ≤ (noiseIter e n sl).2.delta := by
  intro n
  induction n with
  | zero => intro sl h; exact h
  | succ n ih =>
    intro sl h
    exact ih (noiseStep e sl) ((noiseStep_nonneg e sl).2 h)

theorem noiseEntry_locals (e : Env) (sl : State × SettleLocals) :
    (noiseEntry e sl).2.ambient = sl.2.newambient ∧ (noiseEntry e sl).2.delta = sl.2.delta ∧
    (noiseEntry e sl).1.noiseLEVEL = sl.1.noiseLEVEL := by
  refine ⟨primeLoop_ambient e 10 _, (primeLoop_locals e 11 _).2.1, ?_⟩
  exact (settleFrame_fields (primeLoop_settleFrame e 11
    ({ sl.1 with PIN := e.pinAt sl.2.analogPIN sl.1.analogIDX }, sl.2))).2.2.2.2.1

theorem settlePass_nonneg {e : Env} {fuel : Nat} {sl r : State × SettleLocals}
    (h : settlePass e fuel sl = some r) (h0 : 0 ≤ sl.2.delta) : 0 ≤ r.2.delta := by
  rw [settlePass_eq] at h
  obtain ⟨k, -, hr, -, -⟩ := (noiseLoop_iff e fuel _ r).1 h
  subst hr
  exact noiseIter_nonneg e (k + 1) _ (by rw [(noiseEntry_locals e sl).2.1]; exact h0)

theorem passEntry_nonneg (e : Env) (fuel : Nat) :
    ∀ (i : Nat) (sl p : State × SettleLocals), passEntry e fuel i sl = some p →
      0 ≤ sl.2.delta → 0 ≤ p.2.delta := by
  intro i
  induction i with
  | zero =>
    intro sl p h h0
    simp only [passEntry] at h
    cases h
    exact h0
  | succ i ih =>
    intro sl p h h0
    simp only [passEntry] at h
    cases hq : settlePass e fuel sl with
    | none => rw [hq] at h; cases h
    | some q =>
      rw [hq] at h
      have hq0 : 0 ≤ q.2.delta := settlePass_nonneg hq h0
      exact ih _ p h hq0

/-- C19: every execution of the noise loop's body leaves `newdelta >= 0`, and
`delta >= 0` if `delta >= 0` before; and in every pass of the sensor loop that
a run of `performSettle` reaches, whatever the samples, `delta >= 0` on entry
of the pass and `newdelta >= 0` and `delta >= 0` after every execution of the
noise loop's body. -/
theorem noise_estimate_nonneg (e : Env) :
    (∀ sl : State × SettleLocals, 0 ≤ (noiseStep e sl).2.newdelta ∧
      (0 ≤ sl.2.delta → 0 ≤ (noiseStep e sl).2.delta)) ∧
    (∀ (fuel : Nat) (s : State) (i : Nat) (p : State × SettleLocals),
      passEntry e fuel i ({ s with analogIDX := 0 }, SettleLocals.fresh) = some p →
        0 ≤ p.2.delta ∧
        ∀ n, 0 ≤ (noiseIter e (n + 1) (noiseEntry e p)).2.newdelta ∧
          0 ≤ (noiseIter e (n + 1) (noiseEntry e p)).2.delta) := by
  refine ⟨noiseStep_nonneg e, ?_⟩
  intro fuel s i p hp
  have h0 : 0 ≤ p.2.delta := passEntry_nonneg e fuel i _ p hp (le_refl 0)
  refine ⟨h0, fun n => ⟨?_, ?_⟩⟩
  · rw [noiseIter_succ]
    exact (noiseStep_nonneg e _).1
  · exact noiseIter_nonneg e (n + 1) _ (by rw [(noiseEntry_locals e p).2.1]; exact h0)

theorem noise_estimate_nonneg_witness :
    ∃ p, passEntry (steadyEnv 4) 1 1 ({ twoSensorState with analogIDX := 0 },
        SettleLocals.fresh) = some p ∧
      0 ≤ p.2.delta ∧
      ∀ n, 0 ≤ (noiseIter (steadyEnv 4) (n + 1) (noiseEntry (steadyEnv 4) p)).2.newdelta ∧
        0 ≤ (noiseIter (steadyEnv 4) (n + 1) (noiseEntry (steadyEnv 4) p)).2.delta := by
  have hs : (passEntry (steadyEnv 4) 1 1 ({ twoSensorState with analogIDX := 0 },
      SettleLocals.fresh)).isSome = true := by decide
  obtain ⟨p, hp⟩ := Option.isSome_iff_exists.1 hs
  exact ⟨p, hp, (noise_estimate_nonneg (steadyEnv 4)).2 1 twoSensorState 1 p hp⟩

/-! ## Settling on a steady reading -/

/-- On samples that are all `V ≥ 0`, with the local `ambient` at 0, one
execution of the noise loop's body replaces `delta` by `(V / 2 + delta) / 2`. -/
theorem noiseStep_const (e : Env) (V : Int) (he : ∀ pin k, e.sample pin k = V) (hV : 0 ≤ V)
    (sl : State × SettleLocals) (ha : sl.2.ambient = 0) (hd : 0 ≤ sl.2.delta) :
    (noiseStep e sl).2.delta = (V / 2 + sl.2.delta) / 2 := by
  obtain ⟨-, -, hn, -, hdel⟩ := noiseStep_locals e sl
  rw [ha, he, zero_add, Int.tdiv_eq_ediv hV (by decide)] at hn
  rw [hdel, hn, ha, sub_zero, abs_of_nonneg (by omega),
    Int.tdiv_eq_ediv (by omega) (by decide)]

/-- On samples that are all `V ≥ 0`, with the local `ambient` at 0 and
`0 ≤ delta ≤ V / 2` on entry, after every execution of the noise loop's body
`ambient` is 0, `V / 2 / 2 ≤ delta ≤ V / 2`, and the next execution does not
lower `delta`. -/
theorem noiseIter_const (e : Env) (V : Int) (he : ∀ pin k, e.sample pin k = V) (hV : 0 ≤ V) :
    ∀ (n : Nat) (sl : State × SettleLocals), sl.2.ambient = 0 → 0 ≤ sl.2.delta →
      sl.2.delta ≤ V / 2 →
      (noiseIter e (n + 1) sl).2.ambient = 0 ∧ V / 2 / 2 ≤ (noiseIter e (n + 1) sl).2.delta ∧
      (noiseIter e (n + 1) sl).2.delta ≤ V / 2 ∧
      (noiseIter e (n + 1) sl).2.delta ≤ (noiseIter e (n + 2) sl).2.delta := by
  intro n
  induction n with
  | zero =>
    intro sl ha hd hc
    have h1 := noiseStep_const e V he hV sl ha hd
    have ha1 : (noiseStep e sl).2.ambient = 0 := (noiseStep_locals e sl).1.trans ha
    have h2 := noiseStep_const e V he hV (noiseStep e sl) ha1 (by rw [h1]; omega)
    refine ⟨ha1, ?_, ?_, ?_⟩
    · show V / 2 / 2 ≤ (noiseStep e sl).2.delta
      rw [h1]; omega
    · show (noiseStep e sl).2.delta ≤ V / 2
      rw [h1]; omega
    · show (noiseStep e sl).2.delta ≤ (noiseStep e (noiseStep e sl)).2.delta
      rw [h2, h1]; omega
  | succ n ih =>
    intro sl ha hd hc
    have h1 := noiseStep_const e V he hV sl ha hd
    exact ih (noiseStep e sl) ((noiseStep_locals e sl).1.trans ha) (by rw [h1]; omega)
      (by rw [h1]; omega)

/-- C20: from the fresh locals of `performSettle`, on its first pass, with
every sample equal to `V` in `0..1023`: the first execution of the noise
loop's body leaves `delta = floor(floor(V / 2) / 2)`; the loop ends at that
first execution exactly when this is at most `noiseLEVEL`; otherwise `delta`
never decreases from one execution to the next and stays above `noiseLEVEL`,
the loop has not ended whatever the fuel, and `performSettle`, with at least
one sensor, does not return whatever the fuel. -/
theorem settle_on_steady_reading (e : Env) (V : Int) (s : State)
    (hV : 0 ≤ V ∧ V ≤ 1023) (he : ∀ pin k, e.sample pin k = V) :
    (noiseIter e 1 (noiseEntry e ({ s with analogIDX := 0 }, SettleLocals.fresh))).2.delta
      = V / 2 / 2 ∧
    (∀ fuel, noiseLoop e (fuel + 1) (noiseEntry e ({ s with analogIDX := 0 }, SettleLocals.fresh))
        = some (noiseIter e 1 (noiseEntry e ({ s with analogIDX := 0 }, SettleLocals.fresh)))
      ↔ V / 2 / 2 ≤ s.noiseLEVEL) ∧
    (s.noiseLEVEL < V / 2 / 2 →
      (∀ n,
        (noiseIter e (n + 1) (noiseEntry e ({ s with analogIDX := 0 }, SettleLocals.fresh))).2.delta
          ≤ (noiseIter e (n + 2)
              (noiseEntry e ({ s with analogIDX := 0 }, SettleLocals.fresh))).2.delta ∧
        s.noiseLEVEL < (noiseIter e (n + 1)
          (noiseEntry e ({ s with analogIDX := 0 }, SettleLocals.fresh))).2.delta) ∧
      (∀ fuel, noiseLoop e fuel (noiseEntry e ({ s with analogIDX := 0 }, SettleLocals.fresh))
        = none) ∧
      (0 < s.sensors → ∀ fuel, performSettle e fuel s = none)) := by
  have hps : (∀ fuel, noiseLoop e fuel
        (noiseEntry e ({ s with analogIDX := 0 }, SettleLocals.fresh)) = none) →
      0 < s.sensors → ∀ fuel, performSettle e fuel s = none := by
    intro hn hs fuel
    obtain ⟨m, hm⟩ : ∃ m, s.sensors.toNat = m + 1 := ⟨s.sensors.toNat - 1, by omega⟩
    have hrun : settleRun e fuel s = none := by
      show sensorLoop e fuel s.sensors.toNat ({ s with analogIDX := 0 }, SettleLocals.fresh)
        = none
      rw [hm]
      simp only [sensorLoop]
      rw [if_pos (show SettleLocals.fresh.analogPIN < s.sensors from hs), settlePass_eq, hn fuel]
    simp only [performSettle, hrun]
  obtain ⟨hXa, hXd, hXL⟩ := noiseEntry_locals e ({ s with analogIDX := 0 }, SettleLocals.fresh)
  generalize noiseEntry e ({ s with analogIDX := 0 }, SettleLocals.fresh) = X at hXa hXd hXL hps ⊢
  have ha : X.2.ambient = 0 := hXa
  have hd : X.2.delta = 0 := hXd
  have hL : X.1.noiseLEVEL = s.noiseLEVEL := hXL
  have hfirst : (noiseIter e 1 X).2.delta = V / 2 / 2 := by
    show (noiseStep e X).2.delta = _
    rw [noiseStep_const e V he hV.1 X ha (by rw [hd]), hd, add_zero]
  have hinv := fun n => noiseIter_const e V he hV.1 n X ha (by rw [hd]) (by rw [hd]; omega)
  have hnone : s.noiseLEVEL < V / 2 / 2 → ∀ fuel, noiseLoop e fuel X = none := by
    intro hlt fuel
    cases h : noiseLoop e fuel X with
    | none => rfl
    | some r =>
      obtain ⟨k, -, -, hle, -⟩ := (noiseLoop_iff e fuel X r).1 h
      have := (hinv k).2.1
      omega
  refine ⟨hfirst, fun fuel => ⟨fun h => ?_, fun h => ?_⟩, fun hlt => ⟨fun n => ?_, hnone hlt, ?_⟩⟩
  · obtain ⟨k, -, -, hle, -⟩ := (noiseLoop_iff e (fuel + 1) X _).1 h
    have := (hinv k).2.1
    omega
  · exact (noiseLoop_iff e (fuel + 1) X _).2
      ⟨0, Nat.succ_pos fuel, rfl, by rw [hfirst, hL]; exact h,
        fun j hj => absurd hj (Nat.not_lt_zero j)⟩
  · have := hinv n
    exact ⟨this.2.2.2, by omega⟩
  · exact hps (hnone hlt)

theorem settle_on_steady_reading_witness :
    ((0 : Int) ≤ 4 ∧ (4 : Int) ≤ 1023) ∧
    (noiseIter (steadyEnv 4) 1
      (noiseEntry (steadyEnv 4) ({ quietState with analogIDX := 0 }, SettleLocals.fresh))).2.delta
      = 4 / 2 / 2 ∧
    noiseLoop (steadyEnv 4) (0 + 1)
        (noiseEntry (steadyEnv 4) ({ quietState with analogIDX := 0 }, SettleLocals.fresh))
      = some (noiseIter (steadyEnv 4) 1
        (noiseEntry (steadyEnv 4) ({ quietState with analogIDX := 0 }, SettleLocals.fresh))) :=
  ⟨by decide,
    (settle_on_steady_reading (steadyEnv 4) 4 quietState (by decide) (fun _ _ => rfl)).1,
    ((settle_on_steady_reading (steadyEnv 4) 4 quietState (by decide) (fun _ _ => rfl)).2.1 0).2
      (by decide)⟩

/-! ## Which input a pass samples -/

end FSRTrigger

namespace FSRTrigger

/-! ## The samples of a pass -/

end FSRTrigger
